import Mathlib

/-!
# Verification of the Log-Analyzer ingestion core (`src/Log_App.py`)

A shallow embedding of the log-ingestion pipeline of `Log_App.py`:
encoding detection (`detect_encoding_from_sample`), multi-line entry
reassembly (`parse_streaming_to_dfs` / `start_of_entry`), field
extraction (`parse_single_entry` and its regex cascade), and the
user-agent classifier (`canonicalize_ua`).

Strings are modelled as `String` / `List Char`; bytes as `List Nat`.
Python regexes are embedded as deterministic scanners: for every regex
used by the source, greedy matching with backtracking is deterministic
(each subpattern is a character-class run whose follower is outside the
class, or an alternation whose branches start with disjoint characters),
so a direct functional translation is faithful.  `re.search` is
modelled by trying the anchored matcher at each start position, leftmost
first, exactly as the Python engine does.

Character classes are the ASCII interpretations of Python's `\s`, `\d`,
`\w`, `[A-Z]`; the source is only ever exercised on log text.
-/

/-! ## Character classes and basic Python string helpers -/

/-- ASCII model of Python's `\s` (also the set stripped by `str.strip()`). -/
def isPyWS (c : Char) : Bool :=
  c = ' ' || c = '\t' || c = '\n' || c = '\r' || c = '\x0b' || c = '\x0c'

/-- ASCII decimal digit, Python `\d` / `str.isdigit`. -/
def isDigitA (c : Char) : Bool := '0' ≤ c && c ≤ '9'

/-- ASCII upper-case letter, the class `[A-Z]`. -/
def isUpperA (c : Char) : Bool := 'A' ≤ c && c ≤ 'Z'

/-- ASCII lower-case letter. -/
def isLowerA (c : Char) : Bool := 'a' ≤ c && c ≤ 'z'

/-- ASCII letter, the class `[A-Za-z]`. -/
def isAlphaA (c : Char) : Bool := isUpperA c || isLowerA c

/-- ASCII model of Python's `\w` (word character). -/
def isWordA (c : Char) : Bool := isAlphaA c || isDigitA c || c = '_'

/-- ASCII lower-casing, the model of `re.I` comparisons. -/
def toLowerA (c : Char) : Char :=
  if isUpperA c then Char.ofNat (c.toNat + 32) else c

/-- Python `str.strip()` on a character list. -/
def pyStripL (l : List Char) : List Char :=
  ((l.dropWhile isPyWS).reverse.dropWhile isPyWS).reverse

/-- Python `str.strip()`. -/
def pyStrip (s : String) : String := ⟨pyStripL s.data⟩

/-- Remove every plain space character. -/
def removeSp (l : List Char) : List Char := l.filter (fun c => !(c = ' '))

/-- `" ".join(...)` on character lists. -/
def joinSp : List (List Char) → List Char
  | [] => []
  | [a] => a
  | a :: b :: t => a ++ ' ' :: joinSp (b :: t)

/-- `re.sub(r'\s+', ' ', s)`: collapse every whitespace run to one space
(a whitespace character followed by more whitespace is dropped; the last
of a run becomes a single space). -/
def collapseWSL : List Char → List Char
  | [] => []
  | c :: t =>
    if isPyWS c then
      match t with
      | c2 :: _ => if isPyWS c2 then collapseWSL t else ' ' :: collapseWSL t
      | [] => [' ']
    else c :: collapseWSL t

/-- `re.sub(r'\s+', ' ', s)` on strings. -/
def collapseWS (s : String) : String := ⟨collapseWSL s.data⟩

/-- Python `str.isdigit()` (ASCII): nonempty and all digits. -/
def isdigitL (l : List Char) : Bool := !l.isEmpty && l.all isDigitA

/-- Case-sensitive substring containment, Python's `sub in s`. -/
def containsSubL (sub s : List Char) : Bool :=
  (List.range (s.length + 1)).any (fun i => sub.isPrefixOf (s.drop i))

/-- Python `sub in s` on strings. -/
def containsSub (sub s : String) : Bool := containsSubL sub.data s.data

/-! ## Encoding detection (`detect_encoding_from_sample`, lines 75-83)

The source tries, in order, to decode the first 64 KiB sample strictly as
utf-8, utf-16 and latin-1, returning the first that does not raise, and
defaults to utf-8.  `utf8Valid` is strict RFC-3629 validity (what
`bytes.decode("utf-8")` accepts); `utf16Ok` models the `utf-16` codec:
optional BOM, two-byte little-endian units by default, surrogates must
pair, odd-length input is an error; latin-1 accepts every byte. -/

/-- A UTF-8 continuation byte. -/
def isCont (b : Nat) : Bool := 0x80 ≤ b && b ≤ 0xBF

/-- Strict UTF-8 validity of a byte sequence (RFC 3629: no overlong forms,
no surrogates, max U+10FFFF), as enforced by Python's strict decoder. -/
def utf8Valid : List Nat → Bool
  | [] => true
  | b :: rest =>
    if b ≤ 0x7F then utf8Valid rest
    else if 0xC2 ≤ b && b ≤ 0xDF then
      match rest with
      | b2 :: r => isCont b2 && utf8Valid r
      | [] => false
    else if b = 0xE0 then
      match rest with
      | b2 :: b3 :: r => (0xA0 ≤ b2 && b2 ≤ 0xBF) && isCont b3 && utf8Valid r
      | _ => false
    else if b = 0xED then
      match rest with
      | b2 :: b3 :: r => (0x80 ≤ b2 && b2 ≤ 0x9F) && isCont b3 && utf8Valid r
      | _ => false
    else if 0xE1 ≤ b && b ≤ 0xEF then
      match rest with
      | b2 :: b3 :: r => isCont b2 && isCont b3 && utf8Valid r
      | _ => false
    else if b = 0xF0 then
      match rest with
      | b2 :: b3 :: b4 :: r =>
        (0x90 ≤ b2 && b2 ≤ 0xBF) && isCont b3 && isCont b4 && utf8Valid r
      | _ => false
    else if 0xF1 ≤ b && b ≤ 0xF3 then
      match rest with
      | b2 :: b3 :: b4 :: r => isCont b2 && isCont b3 && isCont b4 && utf8Valid r
      | _ => false
    else if b = 0xF4 then
      match rest with
      | b2 :: b3 :: b4 :: r =>
        (0x80 ≤ b2 && b2 ≤ 0x8F) && isCont b3 && isCont b4 && utf8Valid r
      | _ => false
    else false

/-- Check the 16-bit code-unit stream: high surrogates must be followed by
low surrogates, lone low surrogates are errors. -/
def utf16UnitsOk : List Nat → Bool
  | [] => true
  | u :: r =>
    if 0xD800 ≤ u && u ≤ 0xDBFF then
      match r with
      | v :: r2 => (0xDC00 ≤ v && v ≤ 0xDFFF) && utf16UnitsOk r2
      | [] => false
    else if 0xDC00 ≤ u && u ≤ 0xDFFF then false
    else utf16UnitsOk r

/-- Pair bytes into 16-bit units (big- or little-endian); odd length fails. -/
def utf16Pairs (be : Bool) : List Nat → Option (List Nat)
  | [] => some []
  | [_] => none
  | a :: b :: r =>
    (utf16Pairs be r).map (fun us => (if be then a * 256 + b else b * 256 + a) :: us)

/-- Does the byte sequence decode under Python's `utf-16` codec?
A leading BOM selects the byte order; without one, little-endian. -/
def utf16Ok (bs : List Nat) : Bool :=
  match bs with
  | 0xFF :: 0xFE :: r => match utf16Pairs false r with
    | some us => utf16UnitsOk us
    | none => false
  | 0xFE :: 0xFF :: r => match utf16Pairs true r with
    | some us => utf16UnitsOk us
    | none => false
  | r => match utf16Pairs false r with
    | some us => utf16UnitsOk us
    | none => false

/-- Does `sample.decode(enc)` succeed?  (latin-1 accepts every byte.) -/
def decodeOk (enc : String) (s : List Nat) : Bool :=
  if enc = "utf-8" then utf8Valid s
  else if enc = "utf-16" then utf16Ok s
  else if enc = "latin-1" then true
  else false

/-- The `for enc in (...)` loop of `detect_encoding_from_sample`. -/
def detectLoop (encs : List String) (s : List Nat) : String :=
  match encs with
  | [] => "utf-8"
  | e :: r => if decodeOk e s then e else detectLoop r s

/-- `detect_encoding_from_sample` (lines 75-83): truncate to the 64 KiB
sample, then return the first of utf-8, utf-16, latin-1 that decodes. -/
def detect_encoding_from_sample (b : List Nat) : String :=
  detectLoop ["utf-8", "utf-16", "latin-1"] (b.take 65536)

/-! ## Regex scanner primitives

Each Python regex the source uses is built from character-class runs
followed by delimiters outside the class, so greedy matching is
deterministic; these primitives implement exactly that. -/

/-- One-or-more run of characters satisfying `p` (`X+` for a class `X`):
the maximal run, failing if it is empty. -/
def token1 (p : Char → Bool) (l : List Char) : Option (List Char × List Char) :=
  if (l.takeWhile p).isEmpty then none else some (l.takeWhile p, l.dropWhile p)

/-- Consume one exact character. -/
def expectCh (c : Char) (l : List Char) : Option (List Char) :=
  match l with
  | x :: xs => if x = c then some xs else none
  | [] => none

/-- `\d{1,3}` followed by a non-digit delimiter: the full digit run, which
must have length 1..3 (a longer run cannot be followed by the delimiter). -/
def digits13 (l : List Char) : Option (List Char × List Char) :=
  if 1 ≤ (l.takeWhile isDigitA).length && (l.takeWhile isDigitA).length ≤ 3 then
    some (l.takeWhile isDigitA, l.dropWhile isDigitA)
  else none

/-! ## `START_INFO_RE` (line 55)

`^(?:(?P<file>[^:\s]+):(?P<lineno>\d+):)?(?P<ip>\d{1,3}(?:\.\d{1,3}){3})\s`
anchored at the start (`re.match`).  The optional grep prefix is tried
first (greedy `?`); `[^:\s]+` must stop at the first `:`/whitespace, so
both branches are deterministic. -/

/-- Match `\d{1,3}(?:\.\d{1,3}){3}` followed by one `\s` character,
returning the IP text (group `ip`). -/
def matchIp (l : List Char) : Option (List Char) :=
  (digits13 l).bind fun p1 =>
  (expectCh '.' p1.2).bind fun r2 =>
  (digits13 r2).bind fun p2 =>
  (expectCh '.' p2.2).bind fun r4 =>
  (digits13 r4).bind fun p3 =>
  (expectCh '.' p3.2).bind fun r6 =>
  (digits13 r6).bind fun p4 =>
  match p4.2 with
  | c :: _ =>
    if isPyWS c then some (p1.1 ++ '.' :: p2.1 ++ '.' :: p3.1 ++ '.' :: p4.1)
    else none
  | [] => none

/-- Match the grep-style `(?P<file>[^:\s]+):(?P<lineno>\d+):` part,
returning the `file` and `lineno` groups and the rest. -/
def matchGrepTag (l : List Char) : Option (List Char × List Char × List Char) :=
  (token1 (fun c => c ≠ ':' && !isPyWS c) l).bind fun pf =>
  (expectCh ':' pf.2).bind fun r2 =>
  (token1 isDigitA r2).bind fun pn =>
  (expectCh ':' pn.2).bind fun r4 =>
  some (pf.1, pn.1, r4)

/-- `START_INFO_RE.match`: try the optional prefix first, then the bare
IP anchor, exactly like the backtracking engine.  Returns the `file` and
`lineno` groups (when the prefix branch matched) and the `ip` group. -/
def matchStartInfo (l : List Char) : Option (Option (List Char × List Char) × List Char) :=
  match matchGrepTag l with
  | some (f, n, rest) =>
    match matchIp rest with
    | some ip => some (some (f, n), ip)
    | none =>
      match matchIp l with
      | some ip => some (none, ip)
      | none => none
  | none =>
    match matchIp l with
    | some ip => some (none, ip)
    | none => none

/-! ## `COMBINED_LOG_RE` and `COMMON_LOG_RE` (lines 56-63)

`(?P<remote>\S+)\s+(?P<ident>\S+)\s+(?P<authuser>\S+)\s+\[(?P<time>[^\]]+)\]`
`\s+"(?P<request>[^"]*)"\s+(?P<status>\d{3}|-)\s+(?P<bytes>\d+|-)`
and, for the combined form, `\s+"(?P<referer>[^"]*)"\s+"(?P<ua>[^"]*)"`.
Every `\S+`/`\s+`/`[^\]]+`/`[^"]*` run is forced maximal by its follower;
the status and bytes alternations branch on disjoint first characters. -/

/-- A non-whitespace character (`\S`). -/
def nonWS (c : Char) : Bool := !isPyWS c

/-- `(?P<status>\d{3}|-)`: three digits, else `-`.  After three digits the
pattern requires `\s+`, so a fourth digit kills the whole attempt; the
`-` branch cannot rescue it because the position holds a digit. -/
def statusTok (l : List Char) : Option (List Char × List Char) :=
  match l with
  | a :: rest =>
    if isDigitA a then
      match rest with
      | b :: c :: r2 =>
        if isDigitA b && isDigitA c then some ([a, b, c], r2) else none
      | _ => none
    else if a = '-' then some (['-'], rest)
    else none
  | [] => none

/-- `(?P<bytes>\d+|-)`: a maximal digit run, else `-`. -/
def bytesTok (l : List Char) : Option (List Char × List Char) :=
  match l with
  | a :: _ =>
    if isDigitA a then some (l.takeWhile isDigitA, l.dropWhile isDigitA)
    else if a = '-' then some (['-'], l.tail)
    else none
  | [] => none

/-- The groups captured by the combined/common log regexes. -/
structure LogGroups where
  time : List Char
  request : List Char
  status : List Char
  bytesSent : List Char
  referer : List Char
  ua : List Char
  deriving Repr, DecidableEq

/-- Anchored attempt of `COMMON_LOG_RE` at the current position; shared
head of the combined pattern.  Returns the groups up to `bytes` and the
remaining input. -/
def matchHead3 (l : List Char) : Option (List Char) :=
  (token1 nonWS l).bind fun p1 : List Char × List Char =>
  (token1 isPyWS p1.2).bind fun p2 : List Char × List Char =>
  (token1 nonWS p2.2).bind fun p3 : List Char × List Char =>
  (token1 isPyWS p3.2).bind fun p4 : List Char × List Char =>
  (token1 nonWS p4.2).bind fun p5 : List Char × List Char =>
  (token1 isPyWS p5.2).bind fun p6 : List Char × List Char =>
  some p6.2

def matchTimeReq (l : List Char) : Option ((List Char × List Char) × List Char) :=
  (expectCh '[' l).bind fun r7 : List Char =>
  (token1 (fun c => c ≠ ']') r7).bind fun pt : List Char × List Char =>
  (expectCh ']' pt.2).bind fun r9 : List Char =>
  (token1 isPyWS r9).bind fun p10 : List Char × List Char =>
  (expectCh '"' p10.2).bind fun r11 : List Char =>
  (expectCh '"' (r11.dropWhile (fun c => c ≠ '"'))).bind fun r13 : List Char =>
  some ((pt.1, r11.takeWhile (fun c => c ≠ '"')), r13)

def matchStatusBytesPart (l : List Char) :
    Option ((List Char × List Char) × List Char) :=
  (token1 isPyWS l).bind fun p14 : List Char × List Char =>
  (statusTok p14.2).bind fun ps : List Char × List Char =>
  (token1 isPyWS ps.2).bind fun p16 : List Char × List Char =>
  (bytesTok p16.2).bind fun pb : List Char × List Char =>
  some ((ps.1, pb.1), pb.2)

def matchCommonAt (l : List Char) : Option (LogGroups × List Char) :=
  (matchHead3 l).bind fun r6 : List Char =>
  (matchTimeReq r6).bind fun tr : (List Char × List Char) × List Char =>
  (matchStatusBytesPart tr.2).bind fun sb : (List Char × List Char) × List Char =>
  some (⟨tr.1.1, tr.1.2, sb.1.1, sb.1.2, [], []⟩, sb.2)

/-- Anchored attempt of `COMBINED_LOG_RE`: the common head followed by
`\s+"(?P<referer>[^"]*)"\s+"(?P<ua>[^"]*)"`. -/
def matchQuoted (l : List Char) : Option (List Char × List Char) :=
  (token1 isPyWS l).bind fun p1 : List Char × List Char =>
  (expectCh '"' p1.2).bind fun r2 : List Char =>
  (expectCh '"' (r2.dropWhile (fun c => c ≠ '"'))).bind fun r4 : List Char =>
  some (r2.takeWhile (fun c => c ≠ '"'), r4)

def matchCombinedAt (l : List Char) : Option LogGroups :=
  (matchCommonAt l).bind fun gr : LogGroups × List Char =>
  (matchQuoted gr.2).bind fun pr : List Char × List Char =>
  (matchQuoted pr.2).bind fun pu : List Char × List Char =>
  some { gr.1 with referer := pr.1, ua := pu.1 }

/-- `re.search` for the combined regex: leftmost matching position. -/
def searchCombined : List Char → Option LogGroups
  | [] => matchCombinedAt []
  | c :: t => (matchCombinedAt (c :: t)).orElse (fun _ => searchCombined t)

/-- `re.search` for the common regex: leftmost matching position. -/
def searchCommon : List Char → Option LogGroups
  | [] => (matchCommonAt []).map Prod.fst
  | c :: t => ((matchCommonAt (c :: t)).map Prod.fst).orElse (fun _ => searchCommon t)

/-! ## Fallback extraction regexes (lines 184-192) -/

/-- State machine for `re.findall(r'"([^"]*)"', entry)`: outside a
quote, look for an opening `"`; inside one, accumulate until the closing
`"`.  An unclosed final quote contributes no group. -/
def quotedGroupsGo (inQ : Bool) (acc : List Char) : List Char → List (List Char)
  | [] => []
  | c :: t =>
    if inQ then
      if c = '"' then acc.reverse :: quotedGroupsGo false [] t
      else quotedGroupsGo true (c :: acc) t
    else if c = '"' then quotedGroupsGo true [] t
    else quotedGroupsGo false [] t

/-- `re.findall(r'"([^"]*)"', entry)`: all non-overlapping quoted groups. -/
def quotedGroups (l : List Char) : List (List Char) := quotedGroupsGo false [] l

/-- Anchored attempt of `\s(\d{3})\s+(-|\d+)`.  The `-` branch of the
last group is tried first, matching the source pattern order. -/
def statusBytesAt (l : List Char) : Option (List Char × List Char) :=
  match l with
  | c :: r1 =>
    if isPyWS c then
      match r1 with
      | a :: b :: d :: r2 =>
        if isDigitA a && isDigitA b && isDigitA d then
          match token1 isPyWS r2 with
          | none => none
          | some (_, r3) =>
            match r3 with
            | '-' :: _ => some ([a, b, d], ['-'])
            | x :: _ =>
              if isDigitA x then some ([a, b, d], r3.takeWhile isDigitA)
              else none
            | [] => none
        else none
      | _ => none
    else none
  | [] => none

/-- `re.search(r'\s(\d{3})\s+(-|\d+)', entry)`: leftmost match, returning
the status and bytes groups. -/
def searchStatusBytes : List Char → Option (List Char × List Char)
  | [] => none
  | c :: t => (statusBytesAt (c :: t)).orElse (fun _ => searchStatusBytes t)

/-- `re.search(r'\[([^\]]+)\]', entry)`: first bracketed token. -/
def searchBracket : List Char → Option (List Char)
  | [] => none
  | '[' :: t =>
    match t.dropWhile (fun c => c ≠ ']'), t.takeWhile (fun c => c ≠ ']') with
    | ']' :: _, x :: xs => some (x :: xs)
    | _, _ => searchBracket t
  | _ :: t => searchBracket t

/-! ## Word-bounded and substring pattern search (the UA regexes)

Every bot pattern in the source is a literal wrapped in `\b...\b` with
`re.I`.  The literals start and end in word characters, so the two `\b`
assertions reduce to: the previous character (if any) and the following
character (if any) are non-word. -/

/-- Case-insensitive literal match at the current position. -/
def isPrefixCI : List Char → List Char → Bool
  | p :: ps, c :: cs => toLowerA p = toLowerA c && isPrefixCI ps cs
  | [], _ => true
  | _, _ => false

/-- The trailing `\b`: end of input or a non-word character follows. -/
def wordEnd (l : List Char) : Bool :=
  match l with
  | [] => true
  | c :: _ => !isWordA c

/-- Scan for `\b<pat>\b` (case-insensitive), tracking the previous
character for the leading boundary. -/
def wbSearchGo (pat : List Char) (prev : Option Char) : List Char → Bool
  | [] => false
  | c :: t =>
    ((match prev with
      | none => true
      | some pc => !isWordA pc) &&
     isPrefixCI pat (c :: t) && wordEnd ((c :: t).drop pat.length))
    || wbSearchGo pat (some c) t

/-- `re.search(r'\b<pat>\b', s, re.I)` for a literal `pat`. -/
def wbSearch (pat : String) (s : String) : Bool :=
  wbSearchGo pat.data none s.data

/-- Case-insensitive substring search, `re.search(pat, s, re.I)` for a
plain literal such as `r'google'`. -/
def subSearchCIGo (pat : List Char) : List Char → Bool
  | [] => pat.isEmpty
  | c :: t => isPrefixCI pat (c :: t) || subSearchCIGo pat t

/-- `re.search(r'google', ua, re.I)`-style search on strings. -/
def subSearchCI (pat s : String) : Bool := subSearchCIGo pat.data s.data

/-! ## Classification data (lines 24-50) -/

/-- `VERIFIED_TOP_BOTS` (lines 24-32); each entry is the literal inside
its `\b...\b` wrapper.  `GPTBot` really does appear twice in the source. -/
def VERIFIED_TOP_BOTS : List String :=
  ["Googlebot", "Googlebot-Image", "Googlebot-News", "Googlebot-Video",
   "Googlebot-Mobile", "Bingbot", "BingPreview", "DuckDuckBot",
   "Baiduspider", "YandexBot", "SemrushBot", "PerplexityBot",
   "GPTBot", "ChatGPT-User", "Claude-User", "ClaudeBot",
   "GPTBot", "Bytespider", "CCBot", "Diffbot",
   "AhrefsBot", "MJ12bot", "facebookexternalhit", "Slackbot",
   "Twitterbot"]

/-- `AI_LLM_BOT_PATTERNS` (lines 33-35). -/
def AI_LLM_BOT_PATTERNS : List String :=
  ["GPTBot", "ChatGPT-User", "PerplexityBot", "Claude-User", "ClaudeBot"]

/-- `AI_LLM_BOT_RE.search(ua)`: the alternation of the AI patterns. -/
def aiRe (ua : String) : Bool := AI_LLM_BOT_PATTERNS.any (fun p => wbSearch p ua)

/-- The list comprehension of line 37: the verified bots minus the AI
patterns. -/
def GENERIC_BOT_PATTERNS : List String :=
  VERIFIED_TOP_BOTS.filter (fun p => !AI_LLM_BOT_PATTERNS.contains p)

/-- `GENERIC_BOT_RE.search(ua)`. -/
def genericRe (ua : String) : Bool := GENERIC_BOT_PATTERNS.any (fun p => wbSearch p ua)

/-- `BOT_CANONICAL` (lines 39-50): ordered (pattern, canonical name). -/
def BOT_CANONICAL : List (String × String) :=
  [("Googlebot", "Googlebot"),
   ("Googlebot-Image", "Googlebot-Image"),
   ("Bingbot", "Bingbot"),
   ("GPTBot", "GPTBot (OpenAI)"),
   ("ChatGPT-User", "ChatGPT-User (OpenAI)"),
   ("PerplexityBot", "PerplexityBot"),
   ("Claude-User", "Claude-User"),
   ("AhrefsBot", "AhrefsBot"),
   ("Slackbot", "Slackbot"),
   ("Twitterbot", "Twitterbot")]

/-- Line 139's `re.search("|".join([p for p,_ in BOT_CANONICAL]), name, re.I)`:
does any canonical pattern occur (word-bounded) in the name? -/
def anyCanonIn (name : String) : Bool :=
  BOT_CANONICAL.any (fun pr => wbSearch pr.1 name)

/-- The `for pat, name in BOT_CANONICAL` loop of `canonicalize_ua`
(lines 133-144), including the group-selection branches. -/
def canonLoop (ua : String) : List (String × String) → Option (String × String)
  | [] => none
  | (p, n) :: rest =>
    if wbSearch p ua then
      some (if containsSub "Google" n then (n, "Google")
        else if containsSub "Bing" n then (n, "Bing")
        else if anyCanonIn n && aiRe ua then (n, "AI/LLM")
        else if aiRe ua then (n, "AI/LLM")
        else (n, "Generic"))
    else canonLoop ua rest

/-- `canonicalize_ua` (lines 127-154): canonical table first, then the
google/bing substring heuristics, the AI and generic alternations, and
finally the raw UA truncated to 80 characters in group Others. -/
def canonicalize_ua (ua : String) : String × String :=
  if ua = "" || pyStrip ua = "-" then ("-", "Others")
  else
    match canonLoop ua BOT_CANONICAL with
    | some r => r
    | none =>
      if subSearchCI "google" ua then ("Unknown Google UA", "Google")
      else if subSearchCI "bing" ua then ("Unknown Bing UA", "Bing")
      else if aiRe ua then ("Unknown AI/LLM", "AI/LLM")
      else if genericRe ua then ("Unknown Generic", "Generic")
      else (⟨ua.data.take 80⟩, "Others")

/-! ## `STATIC_RE` (line 64): `\.(css|js|...|woff2?|ttf|ico)($|\?)`, re.I -/

/-- The extension alternation; `woff2?` contributes both spellings. -/
def staticExts : List String :=
  ["css", "js", "png", "jpg", "jpeg", "gif", "svg", "webp", "woff", "woff2",
   "ttf", "ico"]

/-- End of string or a literal `?`: the `($|\?)` tail. -/
def endOrQm (l : List Char) : Bool :=
  match l with
  | [] => true
  | '?' :: _ => true
  | _ => false

/-- Anchored attempt of the static-extension pattern. -/
def staticAt (l : List Char) : Bool :=
  match l with
  | '.' :: t => staticExts.any (fun e => isPrefixCI e.data t && endOrQm (t.drop e.length))
  | _ => false

/-- `STATIC_RE.search(path)`. -/
def staticSearch : List Char → Bool
  | [] => false
  | l@(_ :: t) => staticAt l || staticSearch t

/-! ## `parse_request_field` (lines 101-107):
`re.match(r'([A-Z]+)\s+(\S+)(?:\s+HTTP/(\d\.\d))?', request)` -/

/-- The optional `(?:\s+HTTP/(\d\.\d))?` suffix; failure leaves the match
intact and yields the `-` placeholder version. -/
def httpVerOpt (l : List Char) : String :=
  match token1 isPyWS l with
  | none => "-"
  | some (_, r) =>
    match r with
    | 'H' :: 'T' :: 'T' :: 'P' :: '/' :: d1 :: '.' :: d2 :: _ =>
      if isDigitA d1 && isDigitA d2 then ⟨[d1, '.', d2]⟩ else "-"
    | _ => "-"

/-- The anchored request-line match: method, path, optional version. -/
def reqMatch (l : List Char) : Option (List Char × List Char × String) :=
  (token1 isUpperA l).bind fun pm : List Char × List Char =>
  (token1 isPyWS pm.2).bind fun pw : List Char × List Char =>
  (token1 nonWS pw.2).bind fun pp : List Char × List Char =>
  some (pm.1, pp.1, httpVerOpt pp.2)

/-- `parse_request_field` (lines 101-107). -/
def parse_request_field (request : String) : String × String × String :=
  if request = "" || request = "-" then ("-", "-", "-")
  else
    match reqMatch request.data with
    | some (m, p, v) => (⟨m⟩, ⟨p⟩, v)
    | none => ("-", request, "-")

/-! ## Timestamp parsing (`parse_time_preserve_tz`, lines 85-99)

The source tries `dateutil.parser.parse(ts, fuzzy=False)`, then
`strptime(ts, "%d/%b/%Y:%H:%M:%S %z")`, then the same without `%z`.
The general-purpose dateutil stage is modelled conservatively by the
strict NCSA formats it subsumes on NCSA timestamps; no claim depends on
the value parsed out of a non-NCSA timestamp, only on `"-"` versus an
isoformat string. -/

/-- A Python `datetime`: the fields the pipeline reads, with the UTC
offset in minutes when timezone-aware. -/
structure PyDateTime where
  year : Nat
  month : Nat
  day : Nat
  hour : Nat
  minute : Nat
  second : Nat
  tz : Option Int
  deriving Repr, DecidableEq

/-- Gregorian leap year, as `datetime` validates it. -/
def isLeap (y : Nat) : Bool := (y % 4 = 0 && y % 100 ≠ 0) || y % 400 = 0

/-- Days in a month, for `datetime`'s day-of-month validation. -/
def daysInMonth (y m : Nat) : Nat :=
  if m = 2 then (if isLeap y then 29 else 28)
  else if m = 4 || m = 6 || m = 9 || m = 11 then 30
  else 31

/-- Numeric value of a digit run. -/
def digitsVal (l : List Char) : Nat :=
  l.foldl (fun a c => a * 10 + (c.toNat - '0'.toNat)) 0

/-- The month-name abbreviations of `%b`, matched case-insensitively. -/
def monthAbbrevs : List String :=
  ["Jan", "Feb", "Mar", "Apr", "May", "Jun",
   "Jul", "Aug", "Sep", "Oct", "Nov", "Dec"]

/-- `%b`: three letters naming a month (1-12). -/
def monthOf (l : List Char) : Option Nat :=
  match monthAbbrevs.findIdx? (fun m => m.data.map toLowerA = l.map toLowerA) with
  | some i => some (i + 1)
  | none => none

/-- A maximal digit run of length 1-2 whose value passes `hi`. -/
def num12 (hi : Nat) (l : List Char) : Option (Nat × List Char) :=
  let d := l.takeWhile isDigitA
  if (d.length = 1 || d.length = 2) && digitsVal d ≤ hi then
    some (digitsVal d, l.dropWhile isDigitA)
  else none

/-- `%z` on NCSA offsets: sign, two hour digits, optional colon, two
minute digits below 60; `datetime` additionally requires the offset to be
strictly inside one day. -/
def parseTzTail (l : List Char) : Option Int :=
  match l with
  | s :: h1 :: h2 :: rest =>
    if (s = '+' || s = '-') && isDigitA h1 && isDigitA h2 then
      let hh := digitsVal [h1, h2]
      let go : List Char → Option Int := fun r2 =>
        match r2 with
        | m1 :: m2 :: [] =>
          if isDigitA m1 && isDigitA m2 && digitsVal [m1, m2] ≤ 59 then
            let mins : Int := hh * 60 + digitsVal [m1, m2]
            if mins < 24 * 60 then some (if s = '-' then -mins else mins) else none
          else none
        | _ => none
      match rest with
      | ':' :: r2 => go r2
      | r2 => go r2
    else none
  | _ => none

/-- `strptime(ts, "%d/%b/%Y:%H:%M:%S")` followed by the `datetime`
constructor's day-of-month validation; the input must be consumed
entirely.  Returns the parsed fields and the unconsumed tail for the
`%z` variant. -/
def parseNCSACore (l : List Char) : Option (PyDateTime × List Char) :=
  match num12 31 l with
  | none => none
  | some (day, r1) =>
    if day = 0 then none else
    match expectCh '/' r1 with
    | none => none
    | some r2 =>
      match r2 with
      | a :: b :: c :: r3 =>
        match monthOf [a, b, c] with
        | none => none
        | some mon =>
          match expectCh '/' r3 with
          | none => none
          | some r4 =>
            let yd := r4.takeWhile isDigitA
            match r4.dropWhile isDigitA with
            | r5 =>
              if yd.length = 4 && 1 ≤ digitsVal yd then
                let year := digitsVal yd
                if day ≤ daysInMonth year mon then
                  match expectCh ':' r5 with
                  | none => none
                  | some r6 =>
                    match num12 23 r6 with
                    | none => none
                    | some (hh, r7) =>
                      match expectCh ':' r7 with
                      | none => none
                      | some r8 =>
                        match num12 59 r8 with
                        | none => none
                        | some (mm, r9) =>
                          match expectCh ':' r9 with
                          | none => none
                          | some r10 =>
                            match num12 59 r10 with
                            | none => none
                            | some (ss, r11) =>
                              some (⟨year, mon, day, hh, mm, ss, none⟩, r11)
                else none
              else none
      | _ => none

/-- `strptime(ts, "%d/%b/%Y:%H:%M:%S %z")` (entire string). -/
def parseNCSATz (l : List Char) : Option PyDateTime :=
  match parseNCSACore l with
  | none => none
  | some (d, rest) =>
    match rest with
    | ' ' :: tzs =>
      match parseTzTail tzs with
      | some off => some { d with tz := some off }
      | none => none
    | _ => none

/-- `strptime(ts, "%d/%b/%Y:%H:%M:%S")` (entire string, no offset). -/
def parseNCSANoTz (l : List Char) : Option PyDateTime :=
  match parseNCSACore l with
  | none => none
  | some (d, rest) => if rest.isEmpty then some d else none

/-- `parse_time_preserve_tz` (lines 85-99). -/
def parse_time_preserve_tz (ts : String) : Option PyDateTime :=
  if ts = "" || pyStrip ts = "-" then none
  else
    match parseNCSATz ts.data with
    | some d => some d
    | none => parseNCSANoTz ts.data

/-- Zero-padded two-digit rendering. -/
def pad2 (n : Nat) : String := if n < 10 then "0" ++ toString n else toString n

/-- Zero-padded four-digit year. -/
def pad4 (n : Nat) : String :=
  if n < 10 then "000" ++ toString n
  else if n < 100 then "00" ++ toString n
  else if n < 1000 then "0" ++ toString n
  else toString n

/-- `datetime.isoformat()`, including the `+HH:MM` suffix when aware. -/
def isoformat (d : PyDateTime) : String :=
  pad4 d.year ++ "-" ++ pad2 d.month ++ "-" ++ pad2 d.day ++ "T" ++
  pad2 d.hour ++ ":" ++ pad2 d.minute ++ ":" ++ pad2 d.second ++
  (match d.tz with
   | none => ""
   | some off =>
     (if off < 0 then "-" else "+") ++
     pad2 (off.natAbs / 60) ++ ":" ++ pad2 (off.natAbs % 60))

/-! ## `safe_urlparse` (lines 109-116): `urlparse(unquote(path))`

Models of the CPython stdlib functions it calls: `unquote` decodes runs
of `%XX` escapes as UTF-8 with replacement; `urlparse` strips control
characters, then splits scheme, netloc, fragment, query and params. -/

/-- Hex digit value. -/
def hexVal (c : Char) : Option Nat :=
  let n := c.toNat
  if 48 ≤ n && n ≤ 57 then some (n - 48)
  else if 97 ≤ n && n ≤ 102 then some (n - 87)
  else if 65 ≤ n && n ≤ 70 then some (n - 55)
  else none

/-- Bytes of the maximal run of valid `%XX` escapes. -/
def pctTake : List Char → List Nat
  | '%' :: a :: b :: r =>
    match hexVal a, hexVal b with
    | some x, some y => (x * 16 + y) :: pctTake r
    | _, _ => []
  | _ => []

/-- Rest of the input after the maximal run of valid `%XX` escapes; each
escape occupies exactly three characters. -/
def pctRest (l : List Char) : List Char := l.drop (3 * (pctTake l).length)

/-- One step of UTF-8 decoding with the `replace` error handler: given
the lead byte and the remaining bytes, the decoded scalar (U+FFFD for an
ill-formed maximal subpart) and how many of the remaining bytes the step
consumed. -/
def utf8Step (b : Nat) (r : List Nat) : Char × Nat :=
  if b ≤ 0x7F then (Char.ofNat b, 0)
  else if 0xC2 ≤ b && b ≤ 0xDF then
    match r with
    | b2 :: _ =>
      if isCont b2 then (Char.ofNat ((b - 0xC0) * 64 + (b2 - 0x80)), 1)
      else ('\uFFFD', 0)
    | [] => ('\uFFFD', 0)
  else if 0xE0 ≤ b && b ≤ 0xEF then
    match r with
    | b2 :: r2 =>
      if (b = 0xE0 && (0xA0 ≤ b2 && b2 ≤ 0xBF)) ||
         (b = 0xED && (0x80 ≤ b2 && b2 ≤ 0x9F)) ||
         (b ≠ 0xE0 && b ≠ 0xED && isCont b2) then
        match r2 with
        | b3 :: _ =>
          if isCont b3 then
            (Char.ofNat ((b - 0xE0) * 4096 + (b2 - 0x80) * 64 + (b3 - 0x80)), 2)
          else ('\uFFFD', 1)
        | [] => ('\uFFFD', 1)
      else ('\uFFFD', 0)
    | [] => ('\uFFFD', 0)
  else if 0xF0 ≤ b && b ≤ 0xF4 then
    match r with
    | b2 :: r2 =>
      if (b = 0xF0 && (0x90 ≤ b2 && b2 ≤ 0xBF)) ||
         (b = 0xF4 && (0x80 ≤ b2 && b2 ≤ 0x8F)) ||
         (b ≠ 0xF0 && b ≠ 0xF4 && isCont b2) then
        match r2 with
        | b3 :: r3 =>
          if isCont b3 then
            match r3 with
            | b4 :: _ =>
              if isCont b4 then
                (Char.ofNat ((b - 0xF0) * 262144 + (b2 - 0x80) * 4096 +
                  (b3 - 0x80) * 64 + (b4 - 0x80)), 3)
              else ('\uFFFD', 2)
            | [] => ('\uFFFD', 2)
          else ('\uFFFD', 1)
        | [] => ('\uFFFD', 1)
      else ('\uFFFD', 0)
    | [] => ('\uFFFD', 0)
  else ('\uFFFD', 0)

/-- UTF-8 decoding with the `replace` error handler; each step consumes
at least the lead byte, so the input length bounds the step count. -/
def utf8DecodeGo : Nat → List Nat → List Char
  | 0, _ => []
  | _ + 1, [] => []
  | fuel + 1, b :: r =>
    (utf8Step b r).1 :: utf8DecodeGo fuel (r.drop (utf8Step b r).2)

/-- UTF-8 decoding with the `replace` error handler. -/
def utf8DecodeR (l : List Nat) : List Char := utf8DecodeGo l.length l

/-- `urllib.parse.unquote` with UTF-8/replace semantics: a run of `%XX`
escapes decodes as one byte sequence; everything else passes through.
Each step consumes at least one character, so the length is fuel enough. -/
def unquoteGo : Nat → List Char → List Char
  | 0, _ => []
  | _ + 1, [] => []
  | fuel + 1, '%' :: a :: b :: r =>
    match hexVal a, hexVal b with
    | some x, some y =>
      utf8DecodeR ((x * 16 + y) :: pctTake r) ++ unquoteGo fuel (pctRest r)
    | _, _ => '%' :: unquoteGo fuel (a :: b :: r)
  | fuel + 1, c :: r => c :: unquoteGo fuel r

/-- `urllib.parse.unquote` with UTF-8/replace semantics. -/
def unquoteL (l : List Char) : List Char := unquoteGo l.length l

/-- `unquote` on strings. -/
def unquoteS (s : String) : String := ⟨unquoteL s.data⟩

/-- A scheme character: letter, digit, `+`, `-` or `.`. -/
def isSchemeChar (c : Char) : Bool :=
  isAlphaA c || isDigitA c || c = '+' || c = '-' || c = '.'

/-- `urlsplit`'s input sanitation: strip leading/trailing C0-control or
space characters, then delete every tab, CR and LF. -/
def cleanUrl (l : List Char) : List Char :=
  (((l.dropWhile (fun c => c.toNat ≤ 32)).reverse.dropWhile
      (fun c => c.toNat ≤ 32)).reverse).filter
    (fun c => c ≠ '\t' && c ≠ '\r' && c ≠ '\n')

/-- The `(path, query)` part of CPython's `urlsplit`: optional scheme
(letter-led run of scheme characters before the first `:`), `//`-netloc
up to the next `/`, `?` or `#`, fragment after the first `#`, query after
the first `?`. -/
def urlsplitPQ (u0 : List Char) : List Char × List Char :=
  let u1 := cleanUrl u0
  let u2 :=
    match u1.findIdx? (fun c => c = ':') with
    | some i =>
      if 0 < i && (match u1 with
        | c :: _ => isAlphaA c
        | [] => false) && (u1.take i).all isSchemeChar then
        u1.drop (i + 1)
      else u1
    | none => u1
  let u3 :=
    match u2 with
    | '/' :: '/' :: rest =>
      rest.dropWhile (fun c => c ≠ '/' && c ≠ '?' && c ≠ '#')
    | _ => u2
  let u4 := u3.takeWhile (fun c => c ≠ '#')
  (u4.takeWhile (fun c => c ≠ '?'),
   if u4.contains '?' then (u4.dropWhile (fun c => c ≠ '?')).tail else [])

/-- CPython's `_splitparams`, applied by `urlparse` when the path
contains `;`: drop everything from the first `;` at or after the last
`/` (or the first `;` anywhere when there is no `/`). -/
def splitParams (u : List Char) : List Char :=
  if u.contains '/' then
    let seg := (u.reverse.takeWhile (fun c => c ≠ '/')).reverse
    if seg.contains ';' then
      u.take (u.length - seg.length) ++ seg.takeWhile (fun c => c ≠ ';')
    else u
  else if u.contains ';' then u.takeWhile (fun c => c ≠ ';')
  else u

/-- `urlparse(u).path` and `.query`. -/
def urlparsePQ (u : List Char) : List Char × List Char :=
  match urlsplitPQ u with
  | (p, q) => (if p.contains ';' then splitParams p else p, q)

/-- `unquote_plus`: `+` becomes space, then percent-decoding. -/
def unquotePlus (l : List Char) : List Char :=
  unquoteL (l.map (fun c => if c = '+' then ' ' else c))

/-- Split a character list on a separator character (Python `str.split`). -/
def splitOnCh (sep : Char) : List Char → List (List Char)
  | [] => [[]]
  | c :: t =>
    if c = sep then [] :: splitOnCh sep t
    else
      match splitOnCh sep t with
      | [] => [[c]]
      | h :: r => (c :: h) :: r

/-- `urllib.parse.parse_qsl` with default options: split on `&`, skip
empty chunks, skip chunks without `=`, skip empty values. -/
def parse_qsl (qs : List Char) : List (String × String) :=
  (splitOnCh '&' qs).foldr
    (fun nv acc =>
      if nv.isEmpty then acc
      else if nv.contains '=' then
        let name := nv.takeWhile (fun c => c ≠ '=')
        let value := (nv.dropWhile (fun c => c ≠ '=')).tail
        if value.isEmpty then acc
        else (⟨unquotePlus name⟩, (⟨unquotePlus value⟩ : String)) :: acc
      else acc) []

/-- Append a value under a key, preserving first-insertion order. -/
def addQP (acc : List (String × List String)) (kv : String × String) :
    List (String × List String) :=
  if acc.any (fun p => p.1 = kv.1) then
    acc.map (fun p => if p.1 = kv.1 then (p.1, p.2 ++ [kv.2]) else p)
  else acc ++ [(kv.1, [kv.2])]

/-- `urllib.parse.parse_qs`. -/
def parse_qs (q : String) : List (String × List String) :=
  (parse_qsl q.data).foldl addQP []

/-- `safe_urlparse` (lines 109-116): placeholder passthrough for empty
or `-` paths, otherwise `urlparse(unquote(path))`; the `try/except`
branch is dead because none of the modelled calls raise. -/
def safe_urlparse (path : String) :
    String × String × List (String × List String) :=
  if path = "" || path = "-" then (path, "", [])
  else
    match urlparsePQ (unquoteL path.data) with
    | (p, q) => (⟨p⟩, ⟨q⟩, parse_qs ⟨q⟩)

/-! ## `parse_single_entry` (lines 159-227)

The source wraps the body in `try/except Exception: return None`; every
subroutine of the body is total (guarded indexing, regex searches,
exception-swallowing helpers), so the `except` branch is dead and the
model returns the record directly.  `parse_streaming_to_dfs`'s
`if r:` test is then always true (a non-empty dict is truthy). -/

/-- The parsed record: one field per key of the dict built at lines
203-225. -/
structure LogRec where
  fileSrc : String
  lineNo : String
  clientIp : String
  timeIso : String
  timeParsed : Option PyDateTime
  method : String
  path : String
  pathClean : String
  query : String
  queryParams : List (String × List String)
  status : String
  statusClass : String
  bytesSent : String
  referer : String
  userAgent : String
  botCanonical : String
  botGroup : String
  isStatic : Bool
  urlSection : String
  httpVersion : String
  rawEntry : String
  deriving Repr, DecidableEq

/-- The literal key strings of the record dict (lines 203-225), in
source order. -/
def recKeys : List String :=
  ["File", "LineNo", "ClientIP", "Time", "Time_parsed", "Method", "Path",
   "PathClean", "Query", "QueryParams", "Status", "StatusClass", "Bytes",
   "Referer", "User-Agent", "BotCanonical", "BotGroup", "IsStatic",
   "Section", "HTTP_Version", "RawEntry"]

/-- Provenance extraction (lines 161-164): `file_src`, `lineno`,
`client_ip` from `START_INFO_RE.match`, with their placeholders. -/
def extractProv (entry : String) : String × String × String :=
  match matchStartInfo entry.data with
  | some (some (f, n), ip) => (⟨f⟩, ⟨n⟩, ⟨ip⟩)
  | some (none, ip) => ("-", "", ⟨ip⟩)
  | none => ("-", "", "-")

/-- The raw fields pulled out by the extraction cascade. -/
structure RawFields where
  timeStr : String
  request : String
  referer : String
  ua : String
  status : String
  bytesS : String
  deriving Repr, DecidableEq

/-- The extraction cascade (lines 166-192): combined regex, then common
regex, then the quoted-group/status-bytes/bracket fallback. -/
def extractMain (entry : String) : RawFields :=
  match searchCombined entry.data with
  | some g =>
    { timeStr := ⟨g.time⟩
      request := if g.request.isEmpty then "-" else pyStrip ⟨g.request⟩
      referer := pyStrip ⟨g.referer⟩
      ua := collapseWS (pyStrip ⟨g.ua⟩)
      status := ⟨g.status⟩
      bytesS := ⟨g.bytesSent⟩ }
  | none =>
    match searchCommon entry.data with
    | some g =>
      { timeStr := ⟨g.time⟩
        request := pyStrip ⟨g.request⟩
        referer := "-"
        ua := "-"
        status := ⟨g.status⟩
        bytesS := ⟨g.bytesSent⟩ }
    | none =>
      let quoted := quotedGroups entry.data
      let sb := searchStatusBytes entry.data
      { timeStr :=
          match searchBracket entry.data with
          | some t => ⟨t⟩
          | none => "-"
        request :=
          match quoted with
          | q0 :: _ => pyStrip ⟨q0⟩
          | [] => "-"
        referer :=
          match quoted with
          | _ :: q1 :: _ => pyStrip ⟨q1⟩
          | _ => "-"
        ua :=
          match quoted.getLast? with
          | some ql => pyStrip ⟨ql⟩
          | none => "-"
        status :=
          match sb with
          | some (st, _) => ⟨st⟩
          | none => "-"
        bytesS :=
          match sb with
          | some (_, bs) => ⟨bs⟩
          | none => "-" }

/-- `parse_single_entry` (lines 159-227). -/
def parse_single_entry (entry : String) : LogRec :=
  let prov := extractProv entry
  let rf := extractMain entry
  let dt := parse_time_preserve_tz rf.timeStr
  let req3 := parse_request_field rf.request
  let u3 := safe_urlparse req3.2.1
  let parts := splitOnCh '/' u3.1.data
  { fileSrc := prov.1
    lineNo := prov.2.1
    clientIp := prov.2.2
    timeIso := match dt with
      | some d => isoformat d
      | none => "-"
    timeParsed := dt
    method := req3.1
    path := req3.2.1
    pathClean := u3.1
    query := u3.2.1
    queryParams := u3.2.2
    status := rf.status
    statusClass :=
      if isdigitL rf.status.data then (⟨rf.status.data.take 1⟩ : String) ++ "xx"
      else "-"
    bytesSent := rf.bytesS
    referer := rf.referer
    userAgent := rf.ua
    botCanonical := (canonicalize_ua rf.ua).1
    botGroup := (canonicalize_ua rf.ua).2
    isStatic := staticSearch req3.2.1.data
    urlSection :=
      if u3.1.data.head? = some '/' && parts.length > 1 then
        match parts with
        | _ :: s :: _ => (⟨s⟩ : String)
        | _ => ""
      else ""
    httpVersion := req3.2.2
    rawEntry := entry }

/-! ## Entry reassembly (`parse_streaming_to_dfs`, lines 247-295)

`start_of_entry` (lines 252-261) and the buffering loop (lines 263-295).
DataFrame batching only chunks the emitted stream of records, so the
model produces the flattened record list. -/

/-- `\d{1,2}/[A-Za-z]{3}/\d{4}` at the current position, two-digit day. -/
def dateAt2 (l : List Char) : Bool :=
  match l with
  | a :: b :: '/' :: c1 :: c2 :: c3 :: '/' :: y1 :: y2 :: y3 :: y4 :: _ =>
    isDigitA a && isDigitA b && isAlphaA c1 && isAlphaA c2 && isAlphaA c3 &&
    isDigitA y1 && isDigitA y2 && isDigitA y3 && isDigitA y4
  | _ => false

/-- `\d{1,2}/[A-Za-z]{3}/\d{4}` at the current position, one-digit day. -/
def dateAt1 (l : List Char) : Bool :=
  match l with
  | a :: '/' :: c1 :: c2 :: c3 :: '/' :: y1 :: y2 :: y3 :: y4 :: _ =>
    isDigitA a && isAlphaA c1 && isAlphaA c2 && isAlphaA c3 &&
    isDigitA y1 && isDigitA y2 && isDigitA y3 && isDigitA y4
  | _ => false

/-- The date pattern at the current position (either day width). -/
def dateAt (l : List Char) : Bool := dateAt2 l || dateAt1 l

/-- `re.search(r'\d{1,2}/[A-Za-z]{3}/\d{4}', ln)`. -/
def containsDate : List Char → Bool
  | [] => false
  | l@(_ :: t) => dateAt l || containsDate t

/-- `start_of_entry` (lines 252-261). -/
def startOfEntryL (l : List Char) : Bool :=
  if l.isEmpty then false
  else if (matchStartInfo l).isSome then true
  else if (l.head? = some '[') && containsDate l then true
  else
    match l with
    | c :: _ => isDigitA c
    | [] => false

/-- `start_of_entry` on strings. -/
def start_of_entry (ln : String) : Bool := startOfEntryL ln.data

/-- The logical-entry strings emitted by the reassembly loop, carrying
the pending buffer: anchors flush the buffer, non-anchors extend it or
are emitted alone (stripped) when no entry is open; end of input flushes
the remainder. -/
def entriesGo (buf : List (List Char)) : List (List Char) → List (List Char)
  | [] => if buf.isEmpty then [] else [pyStripL (joinSp buf)]
  | ln :: ls =>
    if startOfEntryL ln then
      if buf.isEmpty then entriesGo [ln] ls
      else pyStripL (joinSp buf) :: entriesGo [ln] ls
    else
      if buf.isEmpty then pyStripL ln :: entriesGo [] ls
      else entriesGo (buf ++ [ln]) ls

/-- The reassembled logical entries of a line sequence. -/
def entriesL (ls : List (List Char)) : List (List Char) := entriesGo [] ls

/-- Logical entries on strings. -/
def entriesS (lines : List String) : List String :=
  (entriesL (lines.map String.data)).map (fun l => (⟨l⟩ : String))

/-- The record stream of `parse_streaming_to_dfs` (lines 263-295), with
the per-batch DataFrames flattened into one ordered list; `r` is never
`None` (see `parse_single_entry`), so every entry contributes a record. -/
def pipelineGo (buf : List (List Char)) : List (List Char) → List LogRec
  | [] => if buf.isEmpty then [] else [parse_single_entry ⟨pyStripL (joinSp buf)⟩]
  | ln :: ls =>
    if startOfEntryL ln then
      if buf.isEmpty then pipelineGo [ln] ls
      else parse_single_entry ⟨pyStripL (joinSp buf)⟩ :: pipelineGo [ln] ls
    else
      if buf.isEmpty then parse_single_entry ⟨pyStripL ln⟩ :: pipelineGo [] ls
      else pipelineGo (buf ++ [ln]) ls

/-- `parse_streaming_to_dfs` as a record list. -/
def parse_streaming_to_dfs (lines : List String) : List LogRec :=
  pipelineGo [] (lines.map String.data)


/-! ## Relational characterizations of the anchor matchers

Used to state the corrected entry-boundary rule: what the deterministic
scanners recognize, as explicit decompositions. -/

/-- A digit run usable as one IPv4 component: nonempty, at most three
digits. -/
def DigitRun (d : List Char) : Prop :=
  d ≠ [] ∧ d.length ≤ 3 ∧ ∀ c ∈ d, isDigitA c = true

/-- The line decomposes as `\d{1,3}(\.\d{1,3}){3}` followed by a
whitespace character: what `START_INFO_RE`'s `ip` group recognizes. -/
def IpWs (l : List Char) : Prop :=
  ∃ d1 d2 d3 d4 c rest, DigitRun d1 ∧ DigitRun d2 ∧ DigitRun d3 ∧ DigitRun d4 ∧
    isPyWS c = true ∧
    l = d1 ++ '.' :: (d2 ++ '.' :: (d3 ++ '.' :: (d4 ++ c :: rest)))

/-- The line decomposes as `<token>:<integer>:` (grep-style prefix)
followed by `rest`. -/
def GrepTagP (l rest : List Char) : Prop :=
  ∃ f n, f ≠ [] ∧ (∀ c ∈ f, c ≠ ':' ∧ isPyWS c = false) ∧ n ≠ [] ∧
    (∀ c ∈ n, isDigitA c = true) ∧ l = f ++ ':' :: (n ++ ':' :: rest)

/-- What `START_INFO_RE.match` recognizes: an IPv4-whitespace anchor,
optionally behind a grep prefix. -/
def StartInfoProp (l : List Char) : Prop :=
  IpWs l ∨ ∃ rest, GrepTagP l rest ∧ IpWs rest

/-! ## Spec-side boundary rule (for C2)

The spec's rule — optional grep-prefix stripping, then an
IPv4-then-whitespace anchor or a bracketed `[D/Mon/YYYY` date anchor —
is stated as a separate definition built from the spec's words, and the
code's `start_of_entry` is compared against it. -/

/-- Built from the spec's words (§4.3): strip an optional
`<token>:<integer>:` grep prefix. -/
def specStripTag (l : List Char) : List Char :=
  match matchGrepTag l with
  | some (_, _, rest) => rest
  | none => l

/-- Built from the spec's words: the line begins with `[` immediately
followed by the `DD/Mon/YYYY` date token. -/
def specBracketDate (l : List Char) : Bool :=
  match l with
  | '[' :: t => dateAt t
  | _ => false

/-- The spec's boundary rule (§4.3): after optional prefix stripping,
an IPv4-address-then-whitespace anchor or a bracketed date anchor. -/
def specAnchorC2 (l : List Char) : Bool :=
  (matchIp (specStripTag l)).isSome || specBracketDate (specStripTag l)

/-! # Claims -/

/-! ## C8: encoding detection and NUL bytes -/

/-- C8, counterexample: the sample `41 00` ("A" then NUL) contains a NUL
byte, yet the detector selects utf-8 (NUL is a valid UTF-8 scalar), not
utf-16 — there is no NUL fast path in `detect_encoding_from_sample`. -/
theorem c8_nul_not_utf16_counterexample :
    (0x00 ∈ ([0x41, 0x00] : List Nat)) ∧
    detect_encoding_from_sample [0x41, 0x00] = "utf-8" ∧
    detect_encoding_from_sample [0x41, 0x00] ≠ "utf-16" := by
  refine ⟨by decide, by decide, by decide⟩

/-- C8, amended: the detector returns utf-16 exactly when the 64 KiB
sample fails strict UTF-8 decoding and succeeds as UTF-16; NUL bytes by
themselves never trigger UTF-16, and there is no printable-ratio
scoring. -/
theorem c8_utf16_iff_utf8_fails (b : List Nat) :
    detect_encoding_from_sample b = "utf-16" ↔
      utf8Valid (b.take 65536) = false ∧ utf16Ok (b.take 65536) = true := by
  cases h8 : utf8Valid (b.take 65536) <;> cases h16 : utf16Ok (b.take 65536) <;>
    simp [detect_encoding_from_sample, detectLoop, decodeOk, h8, h16]

/-! ## C10: empty orphan line yields the all-placeholder record -/

/-- C10: an empty input line with no open buffer is emitted as an orphan
entry and parsed into a complete record whose fields all carry their
placeholders (`"-"`, the empty string for `LineNo`/`Query`/`Section`,
the empty mapping, group `Others`); the line is not skipped. -/
theorem c10_empty_orphan_placeholder_record :
    parse_streaming_to_dfs [""] =
      [{ fileSrc := "-", lineNo := "", clientIp := "-", timeIso := "-",
         timeParsed := none, method := "-", path := "-", pathClean := "-",
         query := "", queryParams := [], status := "-", statusClass := "-",
         bytesSent := "-", referer := "-", userAgent := "-",
         botCanonical := "-", botGroup := "Others", isStatic := false,
         urlSection := "", httpVersion := "-", rawEntry := "" }] := by
  rfl

/-! ## C1: the well-formed combined scenario line -/

/-- C1: field extraction plus classification on the spec's well-formed
NCSA combined line yields client IP `203.0.113.5`, method `GET`, clean
path `/blog/post-1`, status `200` in class `2xx`, the canonical name
`GPTBot (OpenAI)` (which matches the `GPTBot` signature), and the
AI-agent group, whose literal label in the code is `AI/LLM`. -/
theorem c1_combined_line_scenario :
    (parse_single_entry "203.0.113.5 - - [19/Sep/2025:00:00:39 +0530] \"GET /blog/post-1 HTTP/1.1\" 200 1532 \"https://example.com/\" \"GPTBot/1.0\"").clientIp = "203.0.113.5" ∧
    (parse_single_entry "203.0.113.5 - - [19/Sep/2025:00:00:39 +0530] \"GET /blog/post-1 HTTP/1.1\" 200 1532 \"https://example.com/\" \"GPTBot/1.0\"").method = "GET" ∧
    (parse_single_entry "203.0.113.5 - - [19/Sep/2025:00:00:39 +0530] \"GET /blog/post-1 HTTP/1.1\" 200 1532 \"https://example.com/\" \"GPTBot/1.0\"").pathClean = "/blog/post-1" ∧
    (parse_single_entry "203.0.113.5 - - [19/Sep/2025:00:00:39 +0530] \"GET /blog/post-1 HTTP/1.1\" 200 1532 \"https://example.com/\" \"GPTBot/1.0\"").status = "200" ∧
    (parse_single_entry "203.0.113.5 - - [19/Sep/2025:00:00:39 +0530] \"GET /blog/post-1 HTTP/1.1\" 200 1532 \"https://example.com/\" \"GPTBot/1.0\"").statusClass = "2xx" ∧
    (parse_single_entry "203.0.113.5 - - [19/Sep/2025:00:00:39 +0530] \"GET /blog/post-1 HTTP/1.1\" 200 1532 \"https://example.com/\" \"GPTBot/1.0\"").botCanonical = "GPTBot (OpenAI)" ∧
    wbSearch "GPTBot" "GPTBot (OpenAI)" = true ∧
    (parse_single_entry "203.0.113.5 - - [19/Sep/2025:00:00:39 +0530] \"GET /blog/post-1 HTTP/1.1\" 200 1532 \"https://example.com/\" \"GPTBot/1.0\"").botGroup = "AI/LLM" := by
  exact ⟨rfl, rfl, rfl, rfl, rfl, rfl, rfl, rfl⟩

/-! ## C2: the entry-boundary rule -/

/-- C2, counterexample: `"5abc"` begins with a digit, so the code starts
a new entry there, but it matches neither of the spec's two anchors. -/
theorem c2_boundary_counterexample :
    start_of_entry "5abc" = true ∧ specAnchorC2 "5abc".data = false := by
  refine ⟨by decide, by decide⟩

/-! Forced-parse facts: each scanner run is uniquely determined. -/

theorem takeWhile_forced {p : Char → Bool} :
    ∀ (a : List Char) (x : Char) (r : List Char), (∀ c ∈ a, p c = true) →
      p x = false →
      (a ++ x :: r).takeWhile p = a ∧ (a ++ x :: r).dropWhile p = x :: r := by
  intro a
  induction a with
  | nil =>
    intro x r _ hx
    simp [List.takeWhile, List.dropWhile, hx]
  | cons c t ih =>
    intro x r ha hx
    have hc : p c = true := ha c (by simp)
    have ht := ih x r (fun d hd => ha d (by simp [hd])) hx
    simp [List.takeWhile, List.dropWhile, hc, ht.1, ht.2]

theorem token1_eq {p : Char → Bool} {l a b : List Char}
    (h : token1 p l = some (a, b)) :
    a = l.takeWhile p ∧ b = l.dropWhile p ∧ a ≠ [] := by
  unfold token1 at h
  split at h
  · simp at h
  · rename_i hcond
    have h2 := Option.some.inj h
    have ha : a = l.takeWhile p := (congrArg Prod.fst h2).symm
    have hb : b = l.dropWhile p := (congrArg Prod.snd h2).symm
    refine ⟨ha, hb, ?_⟩
    rw [ha]
    intro hnil
    exact hcond (by simp [hnil])

theorem token1_complete {p : Char → Bool} {a : List Char} (x : Char)
    (r : List Char) (hne : a ≠ []) (ha : ∀ c ∈ a, p c = true)
    (hx : p x = false) : token1 p (a ++ x :: r) = some (a, x :: r) := by
  have hf := takeWhile_forced a x r ha hx
  unfold token1
  rw [hf.1, hf.2]
  simp [List.isEmpty_iff, hne]

theorem digits13_eq {l d r : List Char} (h : digits13 l = some (d, r)) :
    d = l.takeWhile isDigitA ∧ r = l.dropWhile isDigitA ∧
      1 ≤ d.length ∧ d.length ≤ 3 := by
  unfold digits13 at h
  split at h
  · rename_i hcond
    have h2 := Option.some.inj h
    have hd : d = l.takeWhile isDigitA := (congrArg Prod.fst h2).symm
    have hr : r = l.dropWhile isDigitA := (congrArg Prod.snd h2).symm
    simp only [Bool.and_eq_true, decide_eq_true_eq] at hcond
    rw [← hd] at hcond
    exact ⟨hd, hr, hcond.1, hcond.2⟩
  · simp at h

theorem digits13_complete {d : List Char} {x : Char} (r : List Char)
    (hne : d ≠ []) (hlen : d.length ≤ 3) (hd : ∀ c ∈ d, isDigitA c = true)
    (hx : isDigitA x = false) : digits13 (d ++ x :: r) = some (d, x :: r) := by
  have hf := takeWhile_forced d x r hd hx
  unfold digits13
  rw [hf.1, hf.2]
  have h1 : 1 ≤ d.length := by
    cases d with
    | nil => exact absurd rfl hne
    | cons _ _ => simp
  simp [h1, hlen]

theorem expectCh_some {c : Char} {l r : List Char}
    (h : expectCh c l = some r) : l = c :: r := by
  unfold expectCh at h
  cases l with
  | nil => simp at h
  | cons x xs =>
    by_cases hx : x = c
    · subst hx
      simp at h
      rw [h]
    · simp [hx] at h

theorem expectCh_eval (c : Char) (r : List Char) : expectCh c (c :: r) = some r := by
  simp [expectCh]

theorem ws_not_digit {c : Char} (h : isPyWS c = true) : isDigitA c = false := by
  by_cases h1 : c = ' '
  · subst h1; decide
  by_cases h2 : c = '\t'
  · subst h2; decide
  by_cases h3 : c = '\n'
  · subst h3; decide
  by_cases h4 : c = '\r'
  · subst h4; decide
  by_cases h5 : c = '\x0b'
  · subst h5; decide
  by_cases h6 : c = '\x0c'
  · subst h6; decide
  exfalso
  simp [isPyWS, h1, h2, h3, h4, h5, h6] at h

theorem digitRun_of_digits13 {l d r : List Char}
    (h : digits13 l = some (d, r)) : DigitRun d := by
  obtain ⟨he, _, hlo, hhi⟩ := digits13_eq h
  refine ⟨?_, hhi, ?_⟩
  · intro hnil
    rw [hnil] at hlo
    simp at hlo
  · intro c hc
    rw [he] at hc
    exact List.mem_takeWhile_imp hc

theorem digits13_decomp {l d r : List Char}
    (h : digits13 l = some (d, r)) : l = d ++ r := by
  obtain ⟨he, hf, _, _⟩ := digits13_eq h
  rw [he, hf, List.takeWhile_append_dropWhile]

theorem matchIp_sound {l ip : List Char} (h : matchIp l = some ip) :
    ∃ d1 d2 d3 d4 c rest,
      DigitRun d1 ∧ DigitRun d2 ∧ DigitRun d3 ∧ DigitRun d4 ∧ isPyWS c = true ∧
      l = d1 ++ '.' :: (d2 ++ '.' :: (d3 ++ '.' :: (d4 ++ c :: rest))) ∧
      ip = d1 ++ '.' :: (d2 ++ '.' :: (d3 ++ '.' :: d4)) := by
  unfold matchIp at h
  rw [Option.bind_eq_some] at h
  obtain ⟨⟨d1, r1⟩, hd1, h⟩ := h
  rw [Option.bind_eq_some] at h
  obtain ⟨r2, he2, h⟩ := h
  rw [Option.bind_eq_some] at h
  obtain ⟨⟨d2, r3⟩, hd2, h⟩ := h
  rw [Option.bind_eq_some] at h
  obtain ⟨r4, he3, h⟩ := h
  rw [Option.bind_eq_some] at h
  obtain ⟨⟨d3, r5⟩, hd3, h⟩ := h
  rw [Option.bind_eq_some] at h
  obtain ⟨r6, he4, h⟩ := h
  rw [Option.bind_eq_some] at h
  obtain ⟨⟨d4, r7⟩, hd4, h⟩ := h
  simp only at h he2 he3 he4
  cases hr7 : r7 with
  | nil => rw [hr7] at h; simp at h
  | cons c rest =>
    rw [hr7] at h
    simp only [] at h
    by_cases hws : isPyWS c = true
    · rw [if_pos hws] at h
      refine ⟨d1, d2, d3, d4, c, rest,
        digitRun_of_digits13 hd1, digitRun_of_digits13 hd2,
        digitRun_of_digits13 hd3, digitRun_of_digits13 hd4, hws, ?_, ?_⟩
      · rw [digits13_decomp hd1, expectCh_some he2,
          digits13_decomp hd2, expectCh_some he3,
          digits13_decomp hd3, expectCh_some he4,
          digits13_decomp hd4, hr7]
      · simpa using (Option.some.inj h).symm
    · rw [if_neg hws] at h; simp at h

theorem matchIp_complete {d1 d2 d3 d4 : List Char} {c : Char} (rest : List Char)
    (h1 : DigitRun d1) (h2 : DigitRun d2) (h3 : DigitRun d3) (h4 : DigitRun d4)
    (hc : isPyWS c = true) :
    matchIp (d1 ++ '.' :: (d2 ++ '.' :: (d3 ++ '.' :: (d4 ++ c :: rest)))) =
      some (d1 ++ '.' :: (d2 ++ '.' :: (d3 ++ '.' :: d4))) := by
  obtain ⟨hn1, hl1, ha1⟩ := h1
  obtain ⟨hn2, hl2, ha2⟩ := h2
  obtain ⟨hn3, hl3, ha3⟩ := h3
  obtain ⟨hn4, hl4, ha4⟩ := h4
  have e1 := digits13_complete ('.' :: (d2 ++ '.' :: (d3 ++ '.' :: (d4 ++ c :: rest)))).tail
    hn1 hl1 ha1 (by decide : isDigitA '.' = false)
  have e2 := digits13_complete ('.' :: (d3 ++ '.' :: (d4 ++ c :: rest))).tail
    hn2 hl2 ha2 (by decide : isDigitA '.' = false)
  have e3 := digits13_complete ('.' :: (d4 ++ c :: rest)).tail
    hn3 hl3 ha3 (by decide : isDigitA '.' = false)
  have e4 := digits13_complete rest hn4 hl4 ha4 (ws_not_digit hc)
  simp only [List.tail_cons] at e1 e2 e3 e4
  simp [matchIp, e1, e2, e3, e4, expectCh_eval, hc]

theorem token1_run {p : Char → Bool} {l a b : List Char}
    (h : token1 p l = some (a, b)) :
    a ≠ [] ∧ (∀ c ∈ a, p c = true) ∧ l = a ++ b := by
  obtain ⟨ha, hb, hne⟩ := token1_eq h
  refine ⟨hne, ?_, ?_⟩
  · intro c hc
    rw [ha] at hc
    exact List.mem_takeWhile_imp hc
  · rw [ha, hb, List.takeWhile_append_dropWhile]

theorem matchGrepTag_sound {l f n rest : List Char}
    (h : matchGrepTag l = some (f, n, rest)) : GrepTagP l rest := by
  unfold matchGrepTag at h
  rw [Option.bind_eq_some] at h
  obtain ⟨⟨f', r1⟩, hf, h⟩ := h
  simp only [] at h
  rw [Option.bind_eq_some] at h
  obtain ⟨r2, he1, h⟩ := h
  rw [Option.bind_eq_some] at h
  obtain ⟨⟨n', r3⟩, hn, h⟩ := h
  simp only [] at h
  rw [Option.bind_eq_some] at h
  obtain ⟨r4, he2, h⟩ := h
  simp only [Option.some_inj, Prod.mk.injEq] at h
  obtain ⟨hf1, hn1, hr⟩ := h
  obtain ⟨hfne, hfall, hfl⟩ := token1_run hf
  obtain ⟨hnne, hnall, hnl⟩ := token1_run hn
  subst hf1
  subst hn1
  subst hr
  refine ⟨f', n', hfne, ?_, hnne, hnall, ?_⟩
  · intro c hc
    have hq := hfall c hc
    simp only [Bool.and_eq_true, Bool.not_eq_true', decide_eq_true_eq] at hq
    exact hq
  · rw [hfl, expectCh_some he1, hnl, expectCh_some he2]

theorem matchGrepTag_complete {f n : List Char} (rest : List Char) (hfne : f ≠ [])
    (hfall : ∀ c ∈ f, c ≠ ':' ∧ isPyWS c = false) (hnne : n ≠ [])
    (hnall : ∀ c ∈ n, isDigitA c = true) :
    matchGrepTag (f ++ ':' :: (n ++ ':' :: rest)) = some (f, n, rest) := by
  have hq : ∀ c ∈ f, (c ≠ ':' && !isPyWS c) = true := by
    intro c hc
    obtain ⟨h1, h2⟩ := hfall c hc
    simp [h1, h2]
  have e1 := token1_complete ':' (n ++ ':' :: rest) hfne hq
    (by decide : (fun c => c ≠ ':' && !isPyWS c) ':' = false)
  have e2 := token1_complete ':' rest hnne hnall
    (by decide : isDigitA ':' = false)
  simp only [ne_eq, decide_not] at e1
  simp [matchGrepTag, e1, e2, expectCh_eval]

theorem matchStartInfo_iff {l : List Char} :
    (matchStartInfo l).isSome = true ↔ StartInfoProp l := by
  constructor
  · intro h
    unfold matchStartInfo at h
    cases hg : matchGrepTag l with
    | some pr =>
      obtain ⟨f, n, rest⟩ := pr
      rw [hg] at h
      simp only [] at h
      cases hi : matchIp rest with
      | some ip =>
        obtain ⟨d1, d2, d3, d4, c, rest2, p1, p2, p3, p4, pc, hre, _⟩ :=
          matchIp_sound hi
        exact Or.inr ⟨rest, matchGrepTag_sound hg,
          d1, d2, d3, d4, c, rest2, p1, p2, p3, p4, pc, hre⟩
      | none =>
        rw [hi] at h
        simp only [] at h
        cases hi2 : matchIp l with
        | some ip =>
          obtain ⟨d1, d2, d3, d4, c, rest2, p1, p2, p3, p4, pc, hre, _⟩ :=
            matchIp_sound hi2
          exact Or.inl ⟨d1, d2, d3, d4, c, rest2, p1, p2, p3, p4, pc, hre⟩
        | none => rw [hi2] at h; simp at h
    | none =>
      rw [hg] at h
      simp only [] at h
      cases hi2 : matchIp l with
      | some ip =>
        obtain ⟨d1, d2, d3, d4, c, rest2, p1, p2, p3, p4, pc, hre, _⟩ :=
          matchIp_sound hi2
        exact Or.inl ⟨d1, d2, d3, d4, c, rest2, p1, p2, p3, p4, pc, hre⟩
      | none => rw [hi2] at h; simp at h
  · intro hp
    unfold matchStartInfo
    rcases hp with hip | ⟨rest, htag, hip⟩
    · obtain ⟨d1, d2, d3, d4, c, rest2, p1, p2, p3, p4, pc, hre⟩ := hip
      have hml : matchIp l = some (d1 ++ '.' :: (d2 ++ '.' :: (d3 ++ '.' :: d4))) := by
        rw [hre]
        exact matchIp_complete rest2 p1 p2 p3 p4 pc
      cases hg : matchGrepTag l with
      | some pr =>
        obtain ⟨f, n, rest'⟩ := pr
        simp only []
        cases hi : matchIp rest' with
        | some ip => simp
        | none => simp only []; rw [hml]; simp
      | none => simp only []; rw [hml]; simp
    · obtain ⟨f, n, hfne, hfall, hnne, hnall, hl⟩ := htag
      obtain ⟨d1, d2, d3, d4, c, rest2, p1, p2, p3, p4, pc, hre⟩ := hip
      have hg : matchGrepTag l = some (f, n, rest) := by
        rw [hl]
        exact matchGrepTag_complete rest hfne hfall hnne hnall
      have hmi : matchIp rest = some (d1 ++ '.' :: (d2 ++ '.' :: (d3 ++ '.' :: d4))) := by
        rw [hre]
        exact matchIp_complete rest2 p1 p2 p3 p4 pc
      rw [hg]
      simp only []
      rw [hmi]
      simp

theorem containsDate_iff {l : List Char} :
    containsDate l = true ↔ ∃ i, dateAt (l.drop i) = true := by
  induction l with
  | nil =>
    constructor
    · intro h; simp [containsDate] at h
    · intro ⟨i, h⟩
      simp only [List.drop_nil] at h
      simp [dateAt, dateAt1, dateAt2] at h
  | cons c t ih =>
    constructor
    · intro h
      rw [containsDate] at h
      rcases Bool.or_eq_true_iff.mp h with h0 | ht
      · exact ⟨0, h0⟩
      · obtain ⟨i, hi⟩ := ih.mp ht
        exact ⟨i + 1, by simpa using hi⟩
    · intro ⟨i, hi⟩
      rw [containsDate]
      cases i with
      | zero => simp only [List.drop_zero] at hi; rw [hi]; simp
      | succ j =>
        simp only [List.drop_succ_cons] at hi
        rw [ih.mpr ⟨j, hi⟩]
        simp

/-- C2, amended: a line starts a new entry exactly when it is nonempty
and either matches `START_INFO_RE` (an IPv4-whitespace anchor, optionally
behind a grep prefix), or begins with `[` and contains a `D/Mon/YYYY`
date pattern anywhere, or — beyond the spec's two anchors — simply
begins with a decimal digit. -/
theorem c2_amended_boundary_rule (l : List Char) :
    startOfEntryL l = true ↔
      l ≠ [] ∧ (StartInfoProp l ∨
        (l.head? = some '[' ∧ ∃ i, dateAt (l.drop i) = true) ∨
        (∃ c t, l = c :: t ∧ isDigitA c = true)) := by
  cases l with
  | nil =>
    constructor
    · intro h
      simp [startOfEntryL] at h
    · intro h
      exact absurd rfl h.1
  | cons c t =>
    constructor
    · intro h
      refine ⟨by simp, ?_⟩
      unfold startOfEntryL at h
      simp only [List.isEmpty_cons, Bool.false_eq_true, if_false] at h
      by_cases hsi : (matchStartInfo (c :: t)).isSome = true
      · exact Or.inl (matchStartInfo_iff.mp hsi)
      · rw [if_neg hsi] at h
        by_cases hbd : (decide ((c :: t).head? = some '[') && containsDate (c :: t)) = true
        · simp only [Bool.and_eq_true, decide_eq_true_eq] at hbd
          exact Or.inr (Or.inl ⟨hbd.1, containsDate_iff.mp hbd.2⟩)
        · rw [if_neg hbd] at h
          exact Or.inr (Or.inr ⟨c, t, rfl, h⟩)
    · intro h
      unfold startOfEntryL
      simp only [List.isEmpty_cons, Bool.false_eq_true, if_false]
      rcases h.2 with hsp | ⟨hh, hdate⟩ | ⟨c', t', heq, hd⟩
      · rw [if_pos (matchStartInfo_iff.mpr hsp)]
      · by_cases hsi : (matchStartInfo (c :: t)).isSome = true
        · rw [if_pos hsi]
        · rw [if_neg hsi]
          have hb : (decide ((c :: t).head? = some '[') && containsDate (c :: t)) = true := by
            simp only [Bool.and_eq_true, decide_eq_true_eq]
            exact ⟨hh, containsDate_iff.mpr hdate⟩
          rw [if_pos hb]
      · cases heq
        by_cases hsi : (matchStartInfo (c :: t)).isSome = true
        · rw [if_pos hsi]
        · rw [if_neg hsi]
          by_cases hbd : (decide ((c :: t).head? = some '[') && containsDate (c :: t)) = true
          · rw [if_pos hbd]
          · rw [if_neg hbd]
            exact hd

/-! ## C9: fall-through to the Others group -/

theorem canonLoop_cons_neg {ua : String} {p n : String}
    {rest : List (String × String)} (h : wbSearch p ua = false) :
    canonLoop ua ((p, n) :: rest) = canonLoop ua rest := by
  simp [canonLoop, h]

theorem canonLoop_cons_pos {ua : String} {p n : String}
    {rest : List (String × String)} (h : wbSearch p ua = true) :
    canonLoop ua ((p, n) :: rest) =
      some (if containsSub "Google" n then (n, "Google")
        else if containsSub "Bing" n then (n, "Bing")
        else if anyCanonIn n && aiRe ua then (n, "AI/LLM")
        else if aiRe ua then (n, "AI/LLM")
        else (n, "Generic")) := by
  simp [canonLoop, h]

theorem canonLoop_none {ua : String} :
    ∀ L : List (String × String), (∀ pr ∈ L, wbSearch pr.1 ua = false) →
      canonLoop ua L = none := by
  intro L
  induction L with
  | nil => intro _; rfl
  | cons pr rest ih =>
    intro h
    obtain ⟨p, n⟩ := pr
    rw [canonLoop_cons_neg (h (p, n) (by simp))]
    exact ih (fun q hq => h q (by simp [hq]))

/-- C9: a user agent that is nonempty, does not strip to the `-`
placeholder, matches no canonical bot pattern, and triggers none of the
google/bing/AI/generic heuristics is returned truncated to its first 80
characters in group Others. -/
theorem c9_unmatched_ua_others (ua : String)
    (h1 : ua ≠ "") (h2 : pyStrip ua ≠ "-")
    (h3 : ∀ pr ∈ BOT_CANONICAL, wbSearch pr.1 ua = false)
    (h4 : subSearchCI "google" ua = false)
    (h5 : subSearchCI "bing" ua = false)
    (h6 : aiRe ua = false)
    (h7 : genericRe ua = false) :
    canonicalize_ua ua = (⟨ua.data.take 80⟩, "Others") := by
  unfold canonicalize_ua
  rw [if_neg (by simp [h1, h2])]
  rw [canonLoop_none BOT_CANONICAL h3]
  simp [h4, h5, h6, h7]

/-- C9, witness: `Mozilla/5.0` is a human-like UA matching nothing. -/
theorem c9_witness :
    canonicalize_ua "Mozilla/5.0" = ("Mozilla/5.0", "Others") :=
  c9_unmatched_ua_others "Mozilla/5.0" (by decide) (by decide) (by decide)
    (by decide) (by decide) (by decide) (by decide)

/-! ## C5: AI signature versus generic token priority -/

/-- C5, counterexample: the UA `Googlebot crawler GPTBot` contains the
generic token `crawler` (and even matches the generic-bot alternation)
together with the AI signature `GPTBot`, yet it classifies as group
`Google`, not as the AI-agent group: `Googlebot` precedes `GPTBot` in
the canonical table. -/
theorem c5_priority_counterexample :
    subSearchCI "crawler" "Googlebot crawler GPTBot" = true ∧
    genericRe "Googlebot crawler GPTBot" = true ∧
    aiRe "Googlebot crawler GPTBot" = true ∧
    (canonicalize_ua "Googlebot crawler GPTBot").2 = "Google" ∧
    (canonicalize_ua "Googlebot crawler GPTBot").2 ≠ "AI/LLM" := by
  refine ⟨by decide, by decide, by decide, by decide, by decide⟩

/-- C5, amended: for a nonempty, non-placeholder user agent matching one
of the canonical AI signatures (GPTBot, ChatGPT-User, PerplexityBot,
Claude-User), the classifier assigns the AI-agent group regardless of
generic tokens such as `crawler` — provided none of the earlier
Googlebot/Googlebot-Image/Bingbot canonical patterns also matches. -/
theorem c5_amended_ai_priority (ua : String)
    (hne : ua ≠ "") (hdash : pyStrip ua ≠ "-")
    (hai : wbSearch "GPTBot" ua = true ∨ wbSearch "ChatGPT-User" ua = true ∨
      wbSearch "PerplexityBot" ua = true ∨ wbSearch "Claude-User" ua = true)
    (hg1 : wbSearch "Googlebot" ua = false)
    (hg2 : wbSearch "Googlebot-Image" ua = false)
    (hg3 : wbSearch "Bingbot" ua = false) :
    (canonicalize_ua ua).2 = "AI/LLM" := by
  unfold canonicalize_ua
  rw [if_neg (by simp [hne, hdash])]
  unfold BOT_CANONICAL
  rw [canonLoop_cons_neg hg1, canonLoop_cons_neg hg2, canonLoop_cons_neg hg3]
  by_cases hz1 : wbSearch "GPTBot" ua = true
  · have hra : aiRe ua = true := by
      simp [aiRe, AI_LLM_BOT_PATTERNS, hz1]
    rw [canonLoop_cons_pos hz1]
    have e1 : containsSub "Google" "GPTBot (OpenAI)" = false := by decide
    have e2 : containsSub "Bing" "GPTBot (OpenAI)" = false := by decide
    have e3 : anyCanonIn "GPTBot (OpenAI)" = true := by decide
    simp [e1, e2, e3, hra]
  · rw [canonLoop_cons_neg (Bool.not_eq_true _ ▸ hz1 : wbSearch "GPTBot" ua = false)]
    by_cases hz2 : wbSearch "ChatGPT-User" ua = true
    · have hra : aiRe ua = true := by
        simp [aiRe, AI_LLM_BOT_PATTERNS, hz2]
      rw [canonLoop_cons_pos hz2]
      have e1 : containsSub "Google" "ChatGPT-User (OpenAI)" = false := by decide
      have e2 : containsSub "Bing" "ChatGPT-User (OpenAI)" = false := by decide
      have e3 : anyCanonIn "ChatGPT-User (OpenAI)" = true := by decide
      simp [e1, e2, e3, hra]
    · rw [canonLoop_cons_neg (Bool.not_eq_true _ ▸ hz2 : wbSearch "ChatGPT-User" ua = false)]
      by_cases hz3 : wbSearch "PerplexityBot" ua = true
      · have hra : aiRe ua = true := by
          simp [aiRe, AI_LLM_BOT_PATTERNS, hz3]
        rw [canonLoop_cons_pos hz3]
        have e1 : containsSub "Google" "PerplexityBot" = false := by decide
        have e2 : containsSub "Bing" "PerplexityBot" = false := by decide
        have e3 : anyCanonIn "PerplexityBot" = true := by decide
        simp [e1, e2, e3, hra]
      · rw [canonLoop_cons_neg (Bool.not_eq_true _ ▸ hz3 : wbSearch "PerplexityBot" ua = false)]
        have hz4 : wbSearch "Claude-User" ua = true := by
          rcases hai with h | h | h | h
          · exact absurd h hz1
          · exact absurd h hz2
          · exact absurd h hz3
          · exact h
        have hra : aiRe ua = true := by
          simp [aiRe, AI_LLM_BOT_PATTERNS, hz4]
        rw [canonLoop_cons_pos hz4]
        have e1 : containsSub "Google" "Claude-User" = false := by decide
        have e2 : containsSub "Bing" "Claude-User" = false := by decide
        have e3 : anyCanonIn "Claude-User" = true := by decide
        simp [e1, e2, e3, hra]

/-- C5, witness: `crawler GPTBot/1.0` holds both the generic token and
the AI signature and classifies as AI/LLM. -/
theorem c5_witness :
    (canonicalize_ua "crawler GPTBot/1.0").2 = "AI/LLM" :=
  c5_amended_ai_priority "crawler GPTBot/1.0" (by decide) (by decide)
    (Or.inl (by decide)) (by decide) (by decide) (by decide)

/-! ## C6: no session fingerprint exists -/

/-- C6, counterexample: the record dict built at lines 203-225 has no
`session_fingerprint` key — records carry no session fingerprint at all,
so no field is a hash of client IP, canonical UA and hour bucket. -/
theorem c6_no_fingerprint_counterexample :
    "session_fingerprint" ∉ recKeys := by decide

/-- C6, amended: the parsed record carries exactly the 21 keys below;
none of them is or mentions a session or fingerprint value (checked
case-insensitively), so no session key of any spelling exists. -/
theorem c6_amended_record_keys :
    recKeys = ["File", "LineNo", "ClientIP", "Time", "Time_parsed", "Method",
      "Path", "PathClean", "Query", "QueryParams", "Status", "StatusClass",
      "Bytes", "Referer", "User-Agent", "BotCanonical", "BotGroup", "IsStatic",
      "Section", "HTTP_Version", "RawEntry"] ∧
    (∀ k ∈ recKeys, subSearchCI "session" k = false ∧
      subSearchCI "fingerprint" k = false) := by
  refine ⟨rfl, by decide⟩

/-! ## C7: the pipeline returns records and nothing else -/

/-- C7, counterexample: on an input whose only entry misses every anchor
field (no timestamp, no request, no status), the pipeline's entire
return value is still just the one-record list — there is no
ParseDiagnostics value, no failure counter and no failure sample
anywhere in the output. -/
theorem c7_no_diagnostics_counterexample :
    parse_streaming_to_dfs ["@@ garbage @@"] =
      [parse_single_entry "@@ garbage @@"] ∧
    (parse_single_entry "@@ garbage @@").timeIso = "-" ∧
    (parse_single_entry "@@ garbage @@").method = "-" ∧
    (parse_single_entry "@@ garbage @@").status = "-" := by
  refine ⟨by rfl, by rfl, by rfl, by rfl⟩

theorem pipelineGo_eq (ls : List (List Char)) :
    ∀ buf, pipelineGo buf ls =
      (entriesGo buf ls).map (fun e => parse_single_entry ⟨e⟩) := by
  induction ls with
  | nil =>
    intro buf
    unfold pipelineGo entriesGo
    by_cases hb : buf.isEmpty <;> simp [hb]
  | cons ln ls ih =>
    intro buf
    unfold pipelineGo entriesGo
    by_cases hs : startOfEntryL ln <;> by_cases hb : buf.isEmpty <;>
      simp [hs, hb, ih]

/-- C7, amended: for every input, the pipeline returns exactly one
record per logical entry, in order, and nothing else: extraction never
fails, so there are no failure counters or samples, and no diagnostics
value of any kind is computed. -/
theorem c7_amended_records_only (lines : List String) :
    parse_streaming_to_dfs lines = (entriesS lines).map parse_single_entry := by
  unfold parse_streaming_to_dfs entriesS entriesL
  rw [pipelineGo_eq, List.map_map]
  rfl

/-! ## C3: conservation of content through reassembly -/

theorem mem_of_mem_dropWhile {p : Char → Bool} {c : Char} :
    ∀ {l : List Char}, c ∈ l.dropWhile p → c ∈ l := by
  intro l
  induction l with
  | nil => intro h; simp [List.dropWhile] at h
  | cons a t ih =>
    intro h
    rw [List.dropWhile_cons] at h
    by_cases ha : p a = true
    · simp only [ha, if_true] at h
      exact List.mem_cons_of_mem a (ih h)
    · simp only [ha, if_false] at h
      exact h

theorem removeSp_append (a b : List Char) :
    removeSp (a ++ b) = removeSp a ++ removeSp b := by
  simp [removeSp, List.filter_append]

theorem removeSp_space_cons (l : List Char) :
    removeSp (' ' :: l) = removeSp l := by
  simp [removeSp, List.filter_cons]

theorem removeSp_reverse (l : List Char) :
    removeSp l.reverse = (removeSp l).reverse := by
  induction l with
  | nil => rfl
  | cons c t ih =>
    rw [List.reverse_cons, removeSp_append, ih]
    by_cases hc : c = ' '
    · subst hc
      simp [removeSp, List.filter_cons]
    · simp [removeSp, List.filter_cons, hc]

theorem removeSp_dropWhileWS {l : List Char}
    (h : ∀ c ∈ l, isPyWS c = true → c = ' ') :
    removeSp (l.dropWhile isPyWS) = removeSp l := by
  induction l with
  | nil => rfl
  | cons c t ih =>
    rw [List.dropWhile_cons]
    by_cases hw : isPyWS c = true
    · have hc := h c (by simp) hw
      subst hc
      rw [if_pos hw, removeSp_space_cons]
      exact ih (fun d hd => h d (by simp [hd]))
    · rw [if_neg hw]

theorem removeSp_pyStrip {l : List Char}
    (h : ∀ c ∈ l, isPyWS c = true → c = ' ') :
    removeSp (pyStripL l) = removeSp l := by
  unfold pyStripL
  have h1 : ∀ c ∈ (l.dropWhile isPyWS).reverse, isPyWS c = true → c = ' ' := by
    intro c hc
    exact h c (mem_of_mem_dropWhile (List.mem_reverse.mp hc))
  rw [removeSp_reverse, removeSp_dropWhileWS h1, removeSp_reverse,
    List.reverse_reverse]
  exact removeSp_dropWhileWS h

theorem removeSp_joinSp (ls : List (List Char)) :
    removeSp (joinSp ls) = removeSp ls.flatten := by
  induction ls with
  | nil => rfl
  | cons a t ih =>
    cases t with
    | nil =>
      show removeSp a = removeSp ([a] : List (List Char)).flatten
      rw [List.flatten_cons, List.flatten_nil, List.append_nil]
    | cons b t2 =>
      show removeSp (a ++ ' ' :: joinSp (b :: t2)) = removeSp ((a :: b :: t2).flatten)
      rw [List.flatten_cons, removeSp_append, removeSp_append,
        removeSp_space_cons, ih]

theorem joinSp_onlySp {bufs : List (List Char)}
    (h : ∀ p ∈ bufs, ∀ c ∈ p, isPyWS c = true → c = ' ') :
    ∀ c ∈ joinSp bufs, isPyWS c = true → c = ' ' := by
  induction bufs with
  | nil => intro c hc; simp [joinSp] at hc
  | cons a t ih =>
    cases t with
    | nil =>
      intro c hc
      exact h a (by simp) c hc
    | cons b t2 =>
      intro c hc hw
      rw [show joinSp (a :: b :: t2) = a ++ ' ' :: joinSp (b :: t2) from rfl] at hc
      rcases List.mem_append.mp hc with hin | hin
      · exact h a (by simp) c hin hw
      · rcases List.mem_cons.mp hin with rfl | hin2
        · rfl
        · exact ih (fun p hp => h p (by simp [hp])) c hin2 hw

theorem entriesGo_conserve :
    ∀ (ls : List (List Char)) (buf : List (List Char)),
      (∀ ln ∈ ls, ∀ c ∈ ln, isPyWS c = true → c = ' ') →
      (∀ p ∈ buf, ∀ c ∈ p, isPyWS c = true → c = ' ') →
      removeSp (entriesGo buf ls).flatten =
        removeSp (buf.flatten ++ ls.flatten) := by
  intro ls
  induction ls with
  | nil =>
    intro buf _ hbuf
    unfold entriesGo
    by_cases hb : buf.isEmpty
    · rw [if_pos hb]
      have : buf = [] := by simpa using hb
      subst this
      rfl
    · rw [if_neg hb]
      simp only [List.flatten_cons, List.flatten_nil, List.append_nil]
      rw [removeSp_pyStrip (joinSp_onlySp hbuf), removeSp_joinSp]
  | cons ln ls ih =>
    intro buf hls hbuf
    have hln : ∀ c ∈ ln, isPyWS c = true → c = ' ' := hls ln (by simp)
    have hls' : ∀ l ∈ ls, ∀ c ∈ l, isPyWS c = true → c = ' ' :=
      fun l hl => hls l (by simp [hl])
    have hone : ∀ p ∈ [ln], ∀ c ∈ p, isPyWS c = true → c = ' ' := by
      intro p hp
      rw [List.mem_singleton.mp hp]
      exact hln
    unfold entriesGo
    by_cases hs : startOfEntryL ln
    · by_cases hb : buf.isEmpty
      · rw [if_pos hs, if_pos hb]
        have : buf = [] := by simpa using hb
        subst this
        rw [ih [ln] hls' hone]
        rw [List.flatten_cons, List.flatten_nil, List.append_nil,
          List.flatten_cons, List.nil_append]
      · rw [if_pos hs, if_neg hb]
        rw [List.flatten_cons, removeSp_append, ih [ln] hls' hone]
        rw [removeSp_pyStrip (joinSp_onlySp hbuf), removeSp_joinSp]
        rw [List.flatten_cons, List.flatten_nil, List.append_nil,
          List.flatten_cons]
        rw [removeSp_append, removeSp_append, removeSp_append]
    · by_cases hb : buf.isEmpty
      · rw [if_neg hs, if_pos hb]
        have : buf = [] := by simpa using hb
        subst this
        rw [List.flatten_cons, removeSp_append, removeSp_pyStrip hln,
          ih [] hls' (by intro p hp; simp at hp)]
        rw [List.flatten_nil, List.nil_append, List.nil_append,
          List.flatten_cons, removeSp_append]
      · rw [if_neg hs, if_neg hb]
        have happ : ∀ p ∈ buf ++ [ln], ∀ c ∈ p, isPyWS c = true → c = ' ' := by
          intro p hp
          rcases List.mem_append.mp hp with h1 | h1
          · exact hbuf p h1
          · rw [List.mem_singleton.mp h1]
            exact hln
        rw [ih (buf ++ [ln]) hls' happ]
        rw [List.flatten_append, List.flatten_cons, List.flatten_nil,
          List.append_nil, List.flatten_cons]
        rw [removeSp_append, removeSp_append, removeSp_append,
          removeSp_append, List.append_assoc]

theorem flatten_filter_nonempty (ls : List (List Char)) :
    (ls.filter (fun l => !(l = []))).flatten = ls.flatten := by
  induction ls with
  | nil => rfl
  | cons a t ih =>
    rw [List.filter_cons]
    by_cases ha : a = []
    · subst ha
      simpa using ih
    · rw [if_pos (by simpa using ha), List.flatten_cons, List.flatten_cons, ih]

/-- C3, counterexample: the orphan line `"\tx"` is emitted stripped, so
its tab character is lost: the space-free content of the emitted entries
does not reconstruct the space-free content of the non-empty input
lines. -/
theorem c3_conservation_counterexample :
    entriesL [['\t', 'x']] = [['x']] ∧
    removeSp (entriesL [['\t', 'x']]).flatten ≠
      removeSp ([['\t', 'x']].filter (fun l => !(l = []))).flatten := by
  refine ⟨by decide, by decide⟩

/-- C3, amended: when the only whitespace occurring in the input lines
is the plain space character (so that `str.strip()` removes nothing but
spaces), the concatenated content of all emitted logical entries, with
spaces removed, equals the concatenation of all non-empty input lines
with spaces removed; moreover a non-anchor line arriving on an empty
buffer is emitted (stripped) as its own orphan logical entry. -/
theorem c3_amended_conservation (lines : List (List Char))
    (h : ∀ ln ∈ lines, ∀ c ∈ ln, isPyWS c = true → c = ' ') :
    removeSp (entriesL lines).flatten =
      removeSp ((lines.filter (fun l => !(l = []))).flatten) ∧
    ∀ ln ls, startOfEntryL ln = false →
      entriesL (ln :: ls) = pyStripL ln :: entriesL ls := by
  constructor
  · rw [entriesL, entriesGo_conserve lines [] h (by intro p hp; simp at hp),
      flatten_filter_nonempty]
    rfl
  · intro ln ls hs
    show entriesGo [] (ln :: ls) = pyStripL ln :: entriesGo [] ls
    conv_lhs => rw [entriesGo.eq_def]
    simp [hs]

/-- C3, witness: a stream with an anchor line, a wrapped continuation
and an empty line conserves its space-free content. -/
theorem c3_witness :
    removeSp (entriesL [['1', '.', '2', '.', '3', '.', '4', ' ', 'a'],
      ['c', 'o', 'n', 't'], []]).flatten =
    removeSp (([['1', '.', '2', '.', '3', '.', '4', ' ', 'a'],
      ['c', 'o', 'n', 't'], []].filter (fun l => !(l = []))).flatten) :=
  (c3_amended_conservation _ (by decide)).1

/-! ## C4: placeholder completeness of field extraction -/

/-- Well-formed-or-placeholder at the level the spec fixes: provenance
tokens, IP shape, isoformat timestamps, upper-case methods, 3-digit
statuses, `Nxx` classes, digit byte counts, `d.d` HTTP versions, the
closed bot-group taxonomy, and retention of the raw entry.  The
free-form string fields (paths, query, referer, UA, canonical name,
section) admit every string, so they carry no clause. -/
def wfRec (e : String) (r : LogRec) : Prop :=
  (r.fileSrc = "-" ∨ (r.fileSrc.data ≠ [] ∧
    ∀ c ∈ r.fileSrc.data, c ≠ ':' ∧ isPyWS c = false)) ∧
  (r.lineNo.data = [] ∨ ∀ c ∈ r.lineNo.data, isDigitA c = true) ∧
  (r.clientIp = "-" ∨ ∃ d1 d2 d3 d4, DigitRun d1 ∧ DigitRun d2 ∧
    DigitRun d3 ∧ DigitRun d4 ∧
    r.clientIp.data = d1 ++ '.' :: (d2 ++ '.' :: (d3 ++ '.' :: d4))) ∧
  (r.timeIso = "-" ∨ ∃ d, r.timeIso = isoformat d) ∧
  (r.method = "-" ∨ (r.method.data ≠ [] ∧
    ∀ c ∈ r.method.data, isUpperA c = true)) ∧
  (r.status = "-" ∨ ∃ a b c, isDigitA a = true ∧ isDigitA b = true ∧
    isDigitA c = true ∧ r.status.data = [a, b, c]) ∧
  (r.statusClass = "-" ∨ ∃ d, isDigitA d = true ∧
    r.statusClass.data = [d, 'x', 'x']) ∧
  (r.bytesSent = "-" ∨ (r.bytesSent.data ≠ [] ∧
    ∀ c ∈ r.bytesSent.data, isDigitA c = true)) ∧
  (r.httpVersion = "-" ∨ ∃ a b, isDigitA a = true ∧ isDigitA b = true ∧
    r.httpVersion.data = [a, '.', b]) ∧
  r.botGroup ∈ ["Google", "Bing", "AI/LLM", "Generic", "Others"] ∧
  r.rawEntry = e

theorem statusTok_wf {l s r : List Char} (h : statusTok l = some (s, r)) :
    s = ['-'] ∨ ∃ a b c, isDigitA a = true ∧ isDigitA b = true ∧
      isDigitA c = true ∧ s = [a, b, c] := by
  unfold statusTok at h
  cases l with
  | nil => simp at h
  | cons a rest =>
    simp only [] at h
    by_cases ha : isDigitA a = true
    · rw [if_pos ha] at h
      cases rest with
      | nil => simp at h
      | cons b rest2 =>
        cases rest2 with
        | nil => simp at h
        | cons c r2 =>
          simp only [] at h
          by_cases hbc : (isDigitA b && isDigitA c) = true
          · rw [if_pos hbc] at h
            simp only [Option.some_inj, Prod.mk.injEq] at h
            simp only [Bool.and_eq_true] at hbc
            exact Or.inr ⟨a, b, c, ha, hbc.1, hbc.2, h.1.symm⟩
          · rw [if_neg hbc] at h
            simp at h
    · rw [if_neg ha] at h
      by_cases hd : a = '-'
      · rw [if_pos hd] at h
        simp only [Option.some_inj, Prod.mk.injEq] at h
        exact Or.inl h.1.symm
      · rw [if_neg hd] at h
        simp at h

theorem takeWhile_head_digit {a : Char} {t : List Char}
    (ha : isDigitA a = true) :
    (a :: t).takeWhile isDigitA ≠ [] ∧
      ∀ c ∈ (a :: t).takeWhile isDigitA, isDigitA c = true := by
  constructor
  · rw [List.takeWhile_cons, if_pos ha]
    simp
  · intro c hc
    exact List.mem_takeWhile_imp hc

theorem bytesTok_wf {l s r : List Char} (h : bytesTok l = some (s, r)) :
    s = ['-'] ∨ (s ≠ [] ∧ ∀ c ∈ s, isDigitA c = true) := by
  unfold bytesTok at h
  cases l with
  | nil => simp at h
  | cons a rest =>
    simp only [] at h
    by_cases ha : isDigitA a = true
    · rw [if_pos ha] at h
      simp only [Option.some_inj, Prod.mk.injEq] at h
      obtain ⟨h1, _⟩ := h
      subst h1
      exact Or.inr (takeWhile_head_digit ha)
    · rw [if_neg ha] at h
      by_cases hd : a = '-'
      · rw [if_pos hd] at h
        simp only [Option.some_inj, Prod.mk.injEq] at h
        exact Or.inl h.1.symm
      · rw [if_neg hd] at h
        simp at h

/-- The status/bytes well-formedness invariant of a group record. -/
def okStatusBytes (g : LogGroups) : Prop :=
  (g.status = ['-'] ∨ ∃ a b c, isDigitA a = true ∧ isDigitA b = true ∧
    isDigitA c = true ∧ g.status = [a, b, c]) ∧
  (g.bytesSent = ['-'] ∨ (g.bytesSent ≠ [] ∧ ∀ c ∈ g.bytesSent, isDigitA c = true))

theorem matchStatusBytesPart_wf {l : List Char} {p : (List Char × List Char) × List Char}
    (h : matchStatusBytesPart l = some p) :
    (p.1.1 = ['-'] ∨ ∃ a b c, isDigitA a = true ∧ isDigitA b = true ∧
      isDigitA c = true ∧ p.1.1 = [a, b, c]) ∧
    (p.1.2 = ['-'] ∨ (p.1.2 ≠ [] ∧ ∀ c ∈ p.1.2, isDigitA c = true)) := by
  unfold matchStatusBytesPart at h
  rw [Option.bind_eq_some] at h
  obtain ⟨p14, _, h⟩ := h
  rw [Option.bind_eq_some] at h
  obtain ⟨ps, hps, h⟩ := h
  rw [Option.bind_eq_some] at h
  obtain ⟨p16, _, h⟩ := h
  rw [Option.bind_eq_some] at h
  obtain ⟨pb, hpb, h⟩ := h
  simp only [Option.some_inj] at h
  subst h
  obtain ⟨s, r⟩ := ps
  obtain ⟨bs, br⟩ := pb
  exact ⟨statusTok_wf hps, bytesTok_wf hpb⟩

theorem matchCommonAt_wf {l : List Char} {p : LogGroups × List Char}
    (h : matchCommonAt l = some p) : okStatusBytes p.1 := by
  unfold matchCommonAt at h
  rw [Option.bind_eq_some] at h
  obtain ⟨r6, _, h⟩ := h
  rw [Option.bind_eq_some] at h
  obtain ⟨tr, _, h⟩ := h
  rw [Option.bind_eq_some] at h
  obtain ⟨sb, hsb, h⟩ := h
  simp only [Option.some_inj] at h
  subst h
  exact matchStatusBytesPart_wf hsb

theorem matchCombinedAt_wf {l : List Char} {g : LogGroups}
    (h : matchCombinedAt l = some g) : okStatusBytes g := by
  unfold matchCombinedAt at h
  rw [Option.bind_eq_some] at h
  obtain ⟨gr, hgr, h⟩ := h
  rw [Option.bind_eq_some] at h
  obtain ⟨pr, _, h⟩ := h
  rw [Option.bind_eq_some] at h
  obtain ⟨pu, _, h⟩ := h
  simp only [Option.some_inj] at h
  subst h
  exact matchCommonAt_wf hgr

theorem searchCombined_wf {l : List Char} {g : LogGroups}
    (h : searchCombined l = some g) : okStatusBytes g := by
  induction l with
  | nil =>
    rw [searchCombined] at h
    exact matchCombinedAt_wf h
  | cons c t ih =>
    rw [searchCombined] at h
    cases hm : matchCombinedAt (c :: t) with
    | some g2 =>
      rw [hm] at h
      simp only [Option.orElse, Option.some_inj] at h
      subst h
      exact matchCombinedAt_wf hm
    | none =>
      rw [hm] at h
      simp only [Option.orElse] at h
      exact ih h

theorem searchCommon_wf {l : List Char} {g : LogGroups}
    (h : searchCommon l = some g) : okStatusBytes g := by
  induction l with
  | nil =>
    rw [searchCommon] at h
    rw [Option.map_eq_some'] at h
    obtain ⟨p, hp, h2⟩ := h
    subst h2
    exact matchCommonAt_wf hp
  | cons c t ih =>
    rw [searchCommon] at h
    cases hm : matchCommonAt (c :: t) with
    | some p =>
      rw [hm] at h
      simp only [Option.map_some', Option.orElse] at h
      simp only [Option.some_inj] at h
      subst h
      exact matchCommonAt_wf hm
    | none =>
      rw [hm] at h
      simp only [Option.map_none', Option.orElse] at h
      exact ih h

theorem statusBytesAt_wf {l st bs : List Char}
    (h : statusBytesAt l = some (st, bs)) :
    (∃ a b c, isDigitA a = true ∧ isDigitA b = true ∧ isDigitA c = true ∧
      st = [a, b, c]) ∧
    (bs = ['-'] ∨ (bs ≠ [] ∧ ∀ c ∈ bs, isDigitA c = true)) := by
  unfold statusBytesAt at h
  cases l with
  | nil => simp at h
  | cons c r1 =>
    simp only [] at h
    by_cases hw : isPyWS c = true
    · rw [if_pos hw] at h
      cases r1 with
      | nil => simp at h
      | cons a rest =>
        cases rest with
        | nil => simp at h
        | cons b rest2 =>
          cases rest2 with
          | nil => simp at h
          | cons d r2 =>
            simp only [] at h
            by_cases habd : (isDigitA a && isDigitA b && isDigitA d) = true
            · rw [if_pos habd] at h
              simp only [Bool.and_eq_true] at habd
              cases ht : token1 isPyWS r2 with
              | none => rw [ht] at h; simp at h
              | some p =>
                obtain ⟨w, r3⟩ := p
                rw [ht] at h
                simp only [] at h
                split at h
                · simp only [Option.some_inj, Prod.mk.injEq] at h
                  obtain ⟨h1, h2⟩ := h
                  subst h1
                  subst h2
                  exact ⟨⟨a, b, d, habd.1.1, habd.1.2, habd.2, rfl⟩, Or.inl rfl⟩
                · rename_i x r4 hne
                  by_cases hdx : isDigitA x = true
                  · rw [if_pos hdx] at h
                    simp only [Option.some_inj, Prod.mk.injEq] at h
                    obtain ⟨h1, h2⟩ := h
                    subst h1
                    subst h2
                    refine ⟨⟨a, b, d, habd.1.1, habd.1.2, habd.2, rfl⟩,
                      Or.inr (takeWhile_head_digit hdx)⟩
                  · rw [if_neg hdx] at h
                    simp at h
                · simp at h
            · rw [if_neg habd] at h
              simp at h
    · rw [if_neg hw] at h
      simp at h

theorem searchStatusBytes_wf {l st bs : List Char}
    (h : searchStatusBytes l = some (st, bs)) :
    (∃ a b c, isDigitA a = true ∧ isDigitA b = true ∧ isDigitA c = true ∧
      st = [a, b, c]) ∧
    (bs = ['-'] ∨ (bs ≠ [] ∧ ∀ c ∈ bs, isDigitA c = true)) := by
  induction l with
  | nil => simp [searchStatusBytes] at h
  | cons c t ih =>
    rw [searchStatusBytes] at h
    cases hm : statusBytesAt (c :: t) with
    | some p =>
      obtain ⟨st2, bs2⟩ := p
      rw [hm] at h
      simp only [Option.orElse, Option.some_inj, Prod.mk.injEq] at h
      obtain ⟨h1, h2⟩ := h
      subst h1
      subst h2
      exact statusBytesAt_wf hm
    | none =>
      rw [hm] at h
      simp only [Option.orElse] at h
      exact ih h

theorem matchGrepTag_parts {l f n rest : List Char}
    (h : matchGrepTag l = some (f, n, rest)) :
    f ≠ [] ∧ (∀ c ∈ f, c ≠ ':' ∧ isPyWS c = false) ∧ n ≠ [] ∧
      ∀ c ∈ n, isDigitA c = true := by
  unfold matchGrepTag at h
  rw [Option.bind_eq_some] at h
  obtain ⟨⟨f', r1⟩, hf, h⟩ := h
  simp only [] at h
  rw [Option.bind_eq_some] at h
  obtain ⟨r2, he1, h⟩ := h
  rw [Option.bind_eq_some] at h
  obtain ⟨⟨n', r3⟩, hn, h⟩ := h
  simp only [] at h
  rw [Option.bind_eq_some] at h
  obtain ⟨r4, he2, h⟩ := h
  simp only [Option.some_inj, Prod.mk.injEq] at h
  obtain ⟨hf1, hn1, _⟩ := h
  obtain ⟨hfne, hfall, _⟩ := token1_run hf
  obtain ⟨hnne, hnall, _⟩ := token1_run hn
  subst hf1
  subst hn1
  refine ⟨hfne, ?_, hnne, hnall⟩
  intro c hc
  have hq := hfall c hc
  simp only [Bool.and_eq_true, Bool.not_eq_true', decide_eq_true_eq] at hq
  exact hq

theorem matchStartInfo_tag {l f n ip : List Char}
    (h : matchStartInfo l = some (some (f, n), ip)) :
    ∃ rest, matchGrepTag l = some (f, n, rest) := by
  unfold matchStartInfo at h
  cases hg : matchGrepTag l with
  | some pr =>
    obtain ⟨f', n', rest⟩ := pr
    rw [hg] at h
    simp only [] at h
    cases hi : matchIp rest with
    | some ip2 =>
      rw [hi] at h
      simp only [Option.some_inj, Prod.mk.injEq] at h
      obtain ⟨⟨h1, h2⟩, _⟩ := h
      subst h1
      subst h2
      exact ⟨rest, rfl⟩
    | none =>
      rw [hi] at h
      simp only [] at h
      cases hi2 : matchIp l with
      | some ip2 => rw [hi2] at h; simp at h
      | none => rw [hi2] at h; simp at h
  | none =>
    rw [hg] at h
    simp only [] at h
    cases hi2 : matchIp l with
    | some ip2 => rw [hi2] at h; simp at h
    | none => rw [hi2] at h; simp at h

theorem matchStartInfo_ip {l ip : List Char}
    {opt : Option (List Char × List Char)}
    (h : matchStartInfo l = some (opt, ip)) :
    ∃ l2, matchIp l2 = some ip := by
  unfold matchStartInfo at h
  cases hg : matchGrepTag l with
  | some pr =>
    obtain ⟨f', n', rest⟩ := pr
    rw [hg] at h
    simp only [] at h
    cases hi : matchIp rest with
    | some ip2 =>
      rw [hi] at h
      simp only [Option.some_inj, Prod.mk.injEq] at h
      exact ⟨rest, hi.trans (congrArg some h.2)⟩
    | none =>
      rw [hi] at h
      simp only [] at h
      cases hi2 : matchIp l with
      | some ip2 =>
        rw [hi2] at h
        simp only [Option.some_inj, Prod.mk.injEq] at h
        exact ⟨l, hi2.trans (congrArg some h.2)⟩
      | none => rw [hi2] at h; simp at h
  | none =>
    rw [hg] at h
    simp only [] at h
    cases hi2 : matchIp l with
    | some ip2 =>
      rw [hi2] at h
      simp only [Option.some_inj, Prod.mk.injEq] at h
      exact ⟨l, hi2.trans (congrArg some h.2)⟩
    | none => rw [hi2] at h; simp at h

theorem extractProv_wf (e : String) :
    ((extractProv e).1 = "-" ∨ ((extractProv e).1.data ≠ [] ∧
      ∀ c ∈ (extractProv e).1.data, c ≠ ':' ∧ isPyWS c = false)) ∧
    ((extractProv e).2.1.data = [] ∨
      ∀ c ∈ (extractProv e).2.1.data, isDigitA c = true) ∧
    ((extractProv e).2.2 = "-" ∨ ∃ d1 d2 d3 d4, DigitRun d1 ∧ DigitRun d2 ∧
      DigitRun d3 ∧ DigitRun d4 ∧
      (extractProv e).2.2.data = d1 ++ '.' :: (d2 ++ '.' :: (d3 ++ '.' :: d4))) := by
  unfold extractProv
  cases hm : matchStartInfo e.data with
  | none => exact ⟨Or.inl rfl, Or.inl rfl, Or.inl rfl⟩
  | some pr =>
    obtain ⟨opt, ip⟩ := pr
    obtain ⟨l2, hip⟩ := matchStartInfo_ip hm
    obtain ⟨d1, d2, d3, d4, c, rest, p1, p2, p3, p4, _, _, hshape⟩ :=
      matchIp_sound hip
    cases opt with
    | none =>
      refine ⟨Or.inl rfl, Or.inl rfl,
        Or.inr ⟨d1, d2, d3, d4, p1, p2, p3, p4, ?_⟩⟩
      exact hshape
    | some fp =>
      obtain ⟨f, n⟩ := fp
      obtain ⟨rest2, htag⟩ := matchStartInfo_tag hm
      obtain ⟨hfne, hfall, hnne, hnall⟩ := matchGrepTag_parts htag
      exact ⟨Or.inr ⟨hfne, hfall⟩, Or.inr hnall,
        Or.inr ⟨d1, d2, d3, d4, p1, p2, p3, p4, hshape⟩⟩

theorem listWf_to_strWf {s : List Char}
    (h : s = ['-'] ∨ ∃ a b c, isDigitA a = true ∧ isDigitA b = true ∧
      isDigitA c = true ∧ s = [a, b, c]) :
    (⟨s⟩ : String) = "-" ∨ ∃ a b c, isDigitA a = true ∧ isDigitA b = true ∧
      isDigitA c = true ∧ (⟨s⟩ : String).data = [a, b, c] := by
  rcases h with rfl | ⟨a, b, c, ha, hb, hc, rfl⟩
  · exact Or.inl rfl
  · exact Or.inr ⟨a, b, c, ha, hb, hc, rfl⟩

theorem listBytes_to_strWf {s : List Char}
    (h : s = ['-'] ∨ (s ≠ [] ∧ ∀ c ∈ s, isDigitA c = true)) :
    (⟨s⟩ : String) = "-" ∨ ((⟨s⟩ : String).data ≠ [] ∧
      ∀ c ∈ (⟨s⟩ : String).data, isDigitA c = true) := by
  rcases h with rfl | ⟨hne, hall⟩
  · exact Or.inl rfl
  · exact Or.inr ⟨hne, hall⟩

theorem extractMain_wf (e : String) :
    ((extractMain e).status = "-" ∨ ∃ a b c, isDigitA a = true ∧
      isDigitA b = true ∧ isDigitA c = true ∧
      (extractMain e).status.data = [a, b, c]) ∧
    ((extractMain e).bytesS = "-" ∨ ((extractMain e).bytesS.data ≠ [] ∧
      ∀ c ∈ (extractMain e).bytesS.data, isDigitA c = true)) := by
  unfold extractMain
  cases hc : searchCombined e.data with
  | some g =>
    obtain ⟨hs, hb⟩ := searchCombined_wf hc
    exact ⟨listWf_to_strWf hs, listBytes_to_strWf hb⟩
  | none =>
    cases hc2 : searchCommon e.data with
    | some g =>
      obtain ⟨hs, hb⟩ := searchCommon_wf hc2
      exact ⟨listWf_to_strWf hs, listBytes_to_strWf hb⟩
    | none =>
      cases hsb : searchStatusBytes e.data with
      | some p =>
        obtain ⟨st, bs⟩ := p
        obtain ⟨⟨a, b, c, ha, hb, hcd, hst⟩, hbs⟩ := searchStatusBytes_wf hsb
        subst hst
        exact ⟨Or.inr ⟨a, b, c, ha, hb, hcd, rfl⟩, listBytes_to_strWf hbs⟩
      | none => exact ⟨Or.inl rfl, Or.inl rfl⟩

theorem httpVerOpt_wf (l : List Char) :
    httpVerOpt l = "-" ∨ ∃ a b, isDigitA a = true ∧ isDigitA b = true ∧
      (httpVerOpt l).data = [a, '.', b] := by
  unfold httpVerOpt
  cases hm : token1 isPyWS l with
  | none => exact Or.inl rfl
  | some p =>
    obtain ⟨w, r⟩ := p
    simp only []
    split
    · rename_i d1 d2 rest
      by_cases hd : (isDigitA d1 && isDigitA d2) = true
      · rw [if_pos hd]
        simp only [Bool.and_eq_true] at hd
        exact Or.inr ⟨d1, d2, hd.1, hd.2, rfl⟩
      · rw [if_neg hd]
        exact Or.inl rfl
    · exact Or.inl rfl

theorem parse_request_field_wf (req : String) :
    ((parse_request_field req).1 = "-" ∨
      ((parse_request_field req).1.data ≠ [] ∧
        ∀ c ∈ (parse_request_field req).1.data, isUpperA c = true)) ∧
    ((parse_request_field req).2.2 = "-" ∨ ∃ a b, isDigitA a = true ∧
      isDigitA b = true ∧ (parse_request_field req).2.2.data = [a, '.', b]) := by
  unfold parse_request_field
  by_cases hg : (req = "" || req = "-") = true
  · rw [if_pos hg]
    exact ⟨Or.inl rfl, Or.inl rfl⟩
  · rw [if_neg hg]
    cases hm : reqMatch req.data with
    | none => exact ⟨Or.inl rfl, Or.inl rfl⟩
    | some t =>
      obtain ⟨m, p, v⟩ := t
      simp only []
      have hrm := hm
      unfold reqMatch at hrm
      rw [Option.bind_eq_some] at hrm
      obtain ⟨⟨meth, r1⟩, hmeth, hrm⟩ := hrm
      simp only [] at hrm
      rw [Option.bind_eq_some] at hrm
      obtain ⟨⟨w2, r2⟩, _, hrm⟩ := hrm
      simp only [] at hrm
      rw [Option.bind_eq_some] at hrm
      obtain ⟨⟨pth, r3⟩, _, hrm⟩ := hrm
      simp only [Option.some_inj, Prod.mk.injEq] at hrm
      obtain ⟨hm1, _, hv⟩ := hrm
      obtain ⟨hmen, hmall, _⟩ := token1_run hmeth
      subst hm1
      constructor
      · exact Or.inr ⟨hmen, hmall⟩
      · rw [← hv]
        exact httpVerOpt_wf r3

theorem canonLoop_mem {ua : String} :
    ∀ (L : List (String × String)) (r : String × String),
      canonLoop ua L = some r →
      r.2 ∈ ["Google", "Bing", "AI/LLM", "Generic", "Others"] := by
  intro L
  induction L with
  | nil => intro r h; simp [canonLoop] at h
  | cons pr rest ih =>
    intro r h
    obtain ⟨p, n⟩ := pr
    by_cases hw : wbSearch p ua = true
    · rw [canonLoop_cons_pos hw] at h
      simp only [Option.some_inj] at h
      subst h
      by_cases h1 : containsSub "Google" n = true
      · simp [h1]
      · by_cases h2 : containsSub "Bing" n = true
        · simp [h1, h2]
        · by_cases h3 : (anyCanonIn n && aiRe ua) = true
          · simp [h1, h2, h3]
          · by_cases h4 : aiRe ua = true
            · simp [h1, h2, h3, h4]
            · simp [h1, h2, h3, h4]
    · rw [canonLoop_cons_neg (Bool.not_eq_true _ ▸ hw)] at h
      exact ih r h

theorem canonicalize_group_mem (ua : String) :
    (canonicalize_ua ua).2 ∈ ["Google", "Bing", "AI/LLM", "Generic", "Others"] := by
  unfold canonicalize_ua
  by_cases hg : (ua = "" || pyStrip ua = "-") = true
  · rw [if_pos hg]
    simp
  · rw [if_neg hg]
    cases hm : canonLoop ua BOT_CANONICAL with
    | some r =>
      simp only []
      exact canonLoop_mem BOT_CANONICAL r hm
    | none =>
      simp only []
      by_cases h1 : subSearchCI "google" ua = true
      · simp [h1]
      · by_cases h2 : subSearchCI "bing" ua = true
        · simp [h1, h2]
        · by_cases h3 : aiRe ua = true
          · simp [h1, h2, h3]
          · by_cases h4 : genericRe ua = true
            · simp [h1, h2, h3, h4]
            · simp [h1, h2, h3, h4]

theorem timeIso_wf (o : Option PyDateTime) :
    (match o with
      | some d => isoformat d
      | none => "-") = "-" ∨
    ∃ d, (match o with
      | some d => isoformat d
      | none => "-") = isoformat d := by
  cases o with
  | none => exact Or.inl rfl
  | some d => exact Or.inr ⟨d, rfl⟩

theorem statusCls_wf {s : String}
    (h : s = "-" ∨ ∃ a b c, isDigitA a = true ∧ isDigitA b = true ∧
      isDigitA c = true ∧ s.data = [a, b, c]) :
    (if isdigitL s.data then ((⟨s.data.take 1⟩ : String) ++ "xx") else "-") = "-" ∨
    ∃ d, isDigitA d = true ∧
      (if isdigitL s.data then ((⟨s.data.take 1⟩ : String) ++ "xx")
        else "-").data = [d, 'x', 'x'] := by
  rcases h with rfl | ⟨a, b, c, ha, hb, hc, hd⟩
  · exact Or.inl rfl
  · right
    have hdig : isdigitL s.data = true := by
      rw [hd]
      simp [isdigitL, ha, hb, hc]
    rw [if_pos hdig, hd]
    exact ⟨a, ha, rfl⟩

/-- C4: field extraction is total — for every logical-entry string,
including the empty string and arbitrary garbage, the record is complete
and every constrained field is either well-formed or its documented
placeholder; the original entry is retained verbatim. -/
theorem c4_placeholder_completeness (e : String) :
    wfRec e (parse_single_entry e) := by
  unfold wfRec
  exact ⟨(extractProv_wf e).1, (extractProv_wf e).2.1, (extractProv_wf e).2.2,
    timeIso_wf (parse_time_preserve_tz (extractMain e).timeStr),
    (parse_request_field_wf (extractMain e).request).1,
    (extractMain_wf e).1,
    statusCls_wf (extractMain_wf e).1,
    (extractMain_wf e).2,
    (parse_request_field_wf (extractMain e).request).2,
    canonicalize_group_mem (extractMain e).ua,
    rfl⟩
